import Mathlib

/-!
xeonds/http-server: a verification development.

A shallow embedding of `main.go` (a small HTTP file browser built on gin) and
theorems about it.

Conventions of the embedding:

* Go strings that the code inspects byte by byte (paths) are `List Char`; the
  only bytes the code distinguishes are `/` and `.`, which are single-byte in
  UTF-8, so reading a string as a list of characters instead of a list of
  bytes changes nothing. Texts that are only built and compared (response
  bodies, error messages, names) are `String`.
* `uint64` values are `Nat` reduced modulo `2 ^ 64`; `int64` values are `Int`
  wrapped by `wrapInt64`.
* A Go panic is `none` (in `humanReadableBytes`, `getDiskUsage`) or the
  response `Response.panic` (in the handlers).
* Calls into the operating system are answered by a `World`: the maps
  `stat`, `readDir`, `statfs`, `createErr`, `writeErr`, `removeErr`, `openErr` say what
  each call returns, `files` holds the contents of the regular files.
* Calls into the Go standard library (`filepath.Clean`, `filepath.Join`,
  `http.ServeFile`, `http.MaxBytesReader`, `Request.FormFile`, `Request.BasicAuth`,
  `fmt.Sprintf`) are embedded from the library's behaviour; each such definition
  says so. What depends on the release of the library (the texts of the errors of
  `FormFile`, the resource limits of the multipart reader) is a field of the `World`.
-/

namespace HttpServer

/-! ## Machine integers -/

/-- Two's-complement wrap of a mathematical integer into the `int64` range. -/
def wrapInt64 (x : Int) : Int := (x + 2 ^ 63) % 2 ^ 64 - 2 ^ 63

/-- Wrap of a natural number into the `uint64` range. -/
def wrapUint64 (x : Nat) : Nat := x % 2 ^ 64

/-- Conversion `uint64(x)` of an `int64` value. -/
def uint64OfInt64 (x : Int) : Nat := (x % 2 ^ 64).toNat

/-- Subtraction of two `uint64` values, with wrap-around. -/
def subUint64 (a b : Nat) : Nat := (a + 2 ^ 64 - b % 2 ^ 64) % 2 ^ 64

/-! ## `humanReadableBytes` (main.go, lines 185-196) -/

/-- The loop `for n := bytes / unit; n >= unit; n /= unit { div *= unit; exp++ }`
of `humanReadableBytes`, started in the state `(n, div, exp)`; `div` is an
`int64`, so the multiplication wraps. The result is the final `(div, exp)`. -/
def unitLoop (n : Nat) (div : Int) (exp : Nat) : Int × Nat :=
  if _h : n ≥ 1024 then unitLoop (n / 1024) (wrapInt64 (div * 1024)) (exp + 1)
  else (div, exp)
termination_by n
decreasing_by omega

/-- Nearest integer to `p / q`, ties to the even neighbour. -/
def roundHalfEven (p q : Nat) : Nat :=
  if 2 * (p % q) > q ∨ (2 * (p % q) = q ∧ (p / q) % 2 = 1) then p / q + 1 else p / q

/-- Number of low bits of a `uint64` that do not fit into the 53-bit
significand of a `float64`. -/
def excessBits (n : Nat) : Nat :=
  ((List.range 11).filter (fun k => 2 ^ (53 + k) ≤ n)).length

/-- The value of `float64(n)` for a `uint64` value `n` (IEEE 754 binary64,
round to nearest, ties to even): `n` itself below `2 ^ 53`, else `n` rounded to
53 significant bits. The value is always an integer. -/
def float64OfUint64 (n : Nat) : Nat :=
  roundHalfEven n (2 ^ excessBits n) * 2 ^ excessBits n

/-- The text `fmt.Sprintf("%.1f", float64(x) / float64(d))` for an integer-valued
float `x` and an `int64` divisor `d`. Go prints the exact binary value rounded
to one decimal, ties to even. The quotient is kept as the fraction `x / d`,
which is the exact `float64` quotient whenever `d` is a power of two (the only
divisors `unitLoop` produces, besides `0` after a wrap). -/
def sprintfF1 (x : Nat) (d : Int) : String :=
  if d = 0 then (if x = 0 then "NaN" else "+Inf")
  else
    (if d < 0 then "-" else "") ++ toString (roundHalfEven (10 * x) d.natAbs / 10) ++ "."
      ++ toString (roundHalfEven (10 * x) d.natAbs % 10)

/-- The string constant `"KMGTPE"` indexed by `exp`. -/
def unitLetters : List Char := "KMGTPE".toList

/-- Embedding of `humanReadableBytes(bytes uint64) string`. `none` is the panic of an
out-of-range index into `"KMGTPE"`. -/
def humanReadableBytes (bytes : Nat) : Option String :=
  if bytes < 1024 then some (toString bytes ++ " B")
  else
    match unitLetters[(unitLoop (bytes / 1024) 1024 0).2]? with
    | none => none
    | some c =>
      some (sprintfF1 (float64OfUint64 bytes) (unitLoop (bytes / 1024) 1024 0).1 ++ " "
        ++ String.singleton c ++ "B")

/-! ## `filepath.Clean` and `filepath.Join` (Go standard library, Unix build)

`Clean` is embedded from the library's loop over the bytes of the path: `r` is
the read position (here: the remaining input), the output is a `lazybuf` whose
first `w` bytes are `buf`, and `dotdot` is the index in the output below which a
`..` element must not backtrack. -/

/-- Image of `os.IsPathSeparator` on Unix. -/
def isPathSeparator (c : Char) : Bool := c == '/'

/-- The output buffer of `Clean` together with the index `dotdot`. -/
structure Lazybuf where
  buf : List Char
  dotdot : Nat
deriving DecidableEq, Repr

/-- The backtracking loop `for out.w > dotdot && !os.IsPathSeparator(out.index(out.w))
{ out.w-- }` started at write index `w`; the result is the final write index. -/
def backtrackTo (buf : List Char) (dotdot : Nat) : Nat → Nat
  | 0 => 0
  | w + 1 =>
    if dotdot < w + 1 ∧ isPathSeparator (buf.getD (w + 1) '/') = false then
      backtrackTo buf dotdot w
    else w + 1

/-- The effect of a `..` element on the output: backtrack over the last
element when there is one above `dotdot`; otherwise, for a path that is not
rooted, append `..` (after a separator when the output is not empty) and move
`dotdot` to the end; otherwise (rooted, nothing to remove) nothing. -/
def dotdotElement (rooted : Bool) (out : Lazybuf) : Lazybuf :=
  if out.dotdot < out.buf.length then
    { out with buf := out.buf.take (backtrackTo out.buf out.dotdot (out.buf.length - 1)) }
  else if rooted = false then
    { buf := (if 0 < out.buf.length then out.buf ++ ['/'] else out.buf) ++ ['.', '.'],
      dotdot := ((if 0 < out.buf.length then out.buf ++ ['/'] else out.buf) ++ ['.', '.']).length }
  else out

/-- The start of a real path element: `if rooted && out.w != 1 || !rooted &&
out.w != 0 { out.append(Separator) }`. -/
def startElement (rooted : Bool) (out : Lazybuf) : Lazybuf :=
  if (rooted = true ∧ out.buf.length ≠ 1) ∨ (rooted = false ∧ out.buf.length ≠ 0) then
    { out with buf := out.buf ++ ['/'] }
  else out

/-- Where the read position of `Clean` stands: at the start of a path element
(the `switch` of the main loop), inside the inner loop that copies a real
element, or on the second byte of a `..` element (the main loop advances by two
there). -/
inductive Scan where
  | element
  | copy
  | skip
deriving DecidableEq, Repr

/-- The look-ahead test `r+1 == n || os.IsPathSeparator(path[r+1])`, on the input
that follows the current byte. -/
def atElementEnd (rest : List Char) : Bool :=
  match rest with
  | [] => true
  | c :: _ => isPathSeparator c

/-- The main loop of `Clean`, one input byte per step. -/
def cleanLoop (rooted : Bool) : Scan → List Char → Lazybuf → Lazybuf
  | _, [], out => out
  | Scan.copy, c :: rest, out =>
    if isPathSeparator c then cleanLoop rooted Scan.element rest out
    else cleanLoop rooted Scan.copy rest { out with buf := out.buf ++ [c] }
  | Scan.skip, _ :: rest, out => cleanLoop rooted Scan.element rest out
  | Scan.element, c :: rest, out =>
    if isPathSeparator c then cleanLoop rooted Scan.element rest out
    else if c = '.' ∧ atElementEnd rest then cleanLoop rooted Scan.element rest out
    else if c = '.' ∧ rest.head? = some '.' ∧ atElementEnd rest.tail then
      cleanLoop rooted Scan.skip rest (dotdotElement rooted out)
    else cleanLoop rooted Scan.copy rest { out with buf := (startElement rooted out).buf ++ [c] }

/-- The final state of the output buffer of `Clean` on a non-empty path: a
rooted path starts with the separator already written and `dotdot = 1`. -/
def cleanState (path : List Char) : Lazybuf :=
  match path with
  | [] => ⟨[], 0⟩
  | c :: rest =>
    if isPathSeparator c then cleanLoop true Scan.element rest ⟨['/'], 1⟩
    else cleanLoop false Scan.element (c :: rest) ⟨[], 0⟩

/-- Embedding of `filepath.Clean`: the empty path and an empty output become `"."`. -/
def Clean (path : List Char) : List Char :=
  if (cleanState path).buf.length = 0 then ['.'] else (cleanState path).buf

/-- Embedding of `filepath.Join`: leading empty elements are ignored, the rest is
joined with `/` and cleaned; with no non-empty element the result is empty. -/
def Join (elem : List (List Char)) : List Char :=
  match elem.dropWhile (fun e => e.isEmpty) with
  | [] => []
  | e :: es => Clean (List.intercalate ['/'] (e :: es))

/-- The directory that the server serves: `filepath.Join(rootDir, "/")`, the path that the
request path `/` names. It is the cleaned root directory, and `/` when the root
directory is the empty string, which `Join` ignores. -/
def servedRoot (rootDir : List Char) : List Char :=
  Join [rootDir, ['/']]

/-- The components of a path: the maximal runs between separators. -/
def components : List Char → List (List Char)
  | [] => [[]]
  | c :: rest =>
    if isPathSeparator c then [] :: components rest
    else
      match components rest with
      | [] => [[c]]
      | s :: ss => (c :: s) :: ss

/-- The text of path elements joined by the separator. -/
def joinSep : List (List Char) → List Char
  | [] => []
  | [s] => s
  | s :: s2 :: ss => s ++ '/' :: joinSep (s2 :: ss)

/-- The text of a cleaned path with the given elements: a rooted path starts with the
separator. -/
def render (rooted : Bool) (segs : List (List Char)) : List Char :=
  (if rooted then ['/'] else []) ++ joinSep segs

/-- A path element that `Clean` keeps and that names an entry: not empty, without a
separator, and neither `.` nor `..`. -/
def normalElement (s : List Char) : Prop :=
  s ≠ [] ∧ '/' ∉ s ∧ s ≠ ['.'] ∧ s ≠ ['.', '.']

/-- The invariant of the output of `Clean`: the buffer is the text of `k` leading `..`
elements (none when the path is rooted) followed by the normal elements `ns`, and
`dotdot` is the length of the text of the leading `..` elements. -/
def CleanShape (rooted : Bool) (k : Nat) (ns : List (List Char)) (st : Lazybuf) : Prop :=
  (rooted = true → k = 0) ∧ (∀ s ∈ ns, normalElement s) ∧
    st.buf = render rooted (List.replicate k ['.', '.'] ++ ns) ∧
    st.dotdot = (render rooted (List.replicate k ['.', '.'])).length

/-- The part of `x` relative to the directory `root` (both cleaned paths), when `x`
is `root` or extends it: `"/"` is extended by dropping the leading separator,
`"."` by any path that is not rooted, any other root by a separator and the
rest. -/
def relativeTo (root x : List Char) : Option (List Char) :=
  if x = root then some []
  else if root = ['/'] then (if x.head? = some '/' then some x.tail else none)
  else if root = ['.'] then (if x.head? = some '/' then none else some x)
  else if (root ++ ['/']) <+: x then some (x.drop (root.length + 1)) else none

/-- Lexical containment: `x` is `root` itself or a path below it, reached from `root`
without any `..` component. -/
def lexBelow (root x : List Char) : Prop :=
  ∃ rel, relativeTo root x = some rel ∧ ['.', '.'] ∉ components rel

instance (root x : List Char) : Decidable (lexBelow root x) :=
  match h : relativeTo root x with
  | none => isFalse (by rintro ⟨rel, hr, _⟩; rw [h] at hr; cases hr)
  | some rel =>
    if hc : ['.', '.'] ∈ components rel then
      isFalse (by rintro ⟨rel2, hr, hn⟩; rw [h] at hr; cases hr; exact hn hc)
    else isTrue ⟨rel, h, hc⟩

/-! ## Data model (main.go, lines 20-30 and 80-85) -/

/-- The package-level configuration after `init` has parsed the flags. -/
structure Config where
  rootDir : List Char
  username : String
  password : String
  uploadLimit : Int
  authEnabled : Bool

/-- An error returned by the operating system; `msg` is its `Error()` text. -/
structure OsError where
  msg : String
deriving DecidableEq, Repr

/-- A modification time, broken into calendar fields. -/
structure Time where
  year : Nat
  month : Nat
  day : Nat
  hour : Nat
  minute : Nat
  second : Nat
deriving DecidableEq, Repr

/-- Decimal rendering padded with zeros to `width` digits. -/
def zeroPad (width n : Nat) : String :=
  String.mk (List.replicate (width - (toString n).length) '0') ++ toString n

/-- Embedding of `t.Format("2006-01-02 15:04:05")`. -/
def Time.format (t : Time) : String :=
  zeroPad 4 t.year ++ "-" ++ zeroPad 2 t.month ++ "-" ++ zeroPad 2 t.day ++ " "
    ++ zeroPad 2 t.hour ++ ":" ++ zeroPad 2 t.minute ++ ":" ++ zeroPad 2 t.second

/-- What the code reads from an `os.FileInfo`. -/
structure FileInfo where
  name : String
  size : Int
  modTime : Time
  isDir : Bool
deriving DecidableEq, Repr

/-- Embedding of `type FileMetadata struct`. -/
structure FileMetadata where
  Name : String
  Size : Int
  CreatedAt : String
  IsDir : Bool
deriving DecidableEq, Repr

/-- An `os.DirEntry`: `info` is what its method `Info()` returns. -/
structure DirEntry where
  info : Except OsError FileInfo

/-- The fields of `syscall.Statfs_t` that the code reads. -/
structure Statfs_t where
  Blocks : Nat
  Bfree : Nat
  Bsize : Int
deriving DecidableEq, Repr

/-- The request methods that `init` routes, and any other. -/
inductive Method where
  | GET
  | POST
  | DELETE
  | other
deriving DecidableEq, Repr

/-- One part of a `multipart/form-data` body: the form field `name`, the
filename when the part is a file (what `FileHeader.Filename` reports), the number
of bytes of its header lines, and its content. -/
structure Part where
  name : String
  filename : Option String
  headerLen : Nat
  content : List UInt8
deriving DecidableEq, Repr

/-- A request body. A `multipart/form-data` body has `preamble` bytes before the first
delimiter line, a boundary of `boundaryLen` bytes, its parts, the `closing` bytes that
end the line of the closing delimiter `--boundary--` (none when the body ends with the
delimiter, 2 for the usual `CRLF`), and `epilogue` bytes after that line (an epilogue
needs the line to be ended). Any other body is `raw`: the Content-Type is not
`multipart/form-data`, or the bytes are not a multipart message. -/
inductive Body where
  | multipart (preamble boundaryLen : Nat) (parts : List Part) (closing epilogue : Nat)
  | raw (bytes : List UInt8)
deriving DecidableEq, Repr

/-- Bytes of one part on the wire (RFC 2046): the delimiter line `--boundary CRLF`,
the header lines, the empty line, the content and the `CRLF` before the next
delimiter. -/
def Part.wireLen (boundaryLen : Nat) (p : Part) : Nat :=
  (2 + boundaryLen + 2) + p.headerLen + 2 + p.content.length + 2

/-- Bytes of a body that the multipart reader reads: everything up to the end of the
line of the closing delimiter. The epilogue is never asked for. -/
def Body.readLen : Body → Nat
  | Body.multipart pre b parts closing _ =>
    pre + (parts.map (Part.wireLen b)).sum + (2 + b + 2) + closing
  | Body.raw bytes => bytes.length

/-- Bytes of a body on the wire. -/
def Body.wireLen : Body → Nat
  | Body.multipart pre b parts closing epilogue =>
    pre + (parts.map (Part.wireLen b)).sum + (2 + b + 2) + closing + epilogue
  | Body.raw bytes => bytes.length

/-- Why opening a file fails, as far as `http.toHTTPError` tells the reasons apart. -/
inductive OpenFailure where
  | notExist
  | permission
  | other
deriving DecidableEq, Repr

/-- Why `Request.FormFile` fails: the size-bounded reader cut the body, the request is not
a multipart form, the library refuses the form for a reason of its own, or the form
has no file under the key. -/
inductive FormFileFailure where
  | tooLarge
  | notMultipart
  | refused
  | missingFile
deriving DecidableEq, Repr

/-- The environment of a request. `stat`, `readDir` and `statfs` are the results of
`os.Stat`, `os.ReadDir` and `syscall.Statfs`; `createErr`, `writeErr` and `removeErr` say
whether `os.Create`, `(*os.File).ReadFrom` and `os.Remove` fail on a path (a failing
write also tells how many bytes had been written); `openErr` says whether
`http.ServeFile` fails to open a file; `files` holds the contents of the regular files.
Two parts of the Go library that depend on its release are taken as given:
`formErrorText` is the `Error()` text of a failure of `FormFile`, and `formRefused` says
whether the library refuses a multipart form that it could read (the limits of
`multipart.Reader.ReadForm` on the number of parts and headers and on the memory
of the form values). -/
structure World where
  stat : List Char → Except OsError FileInfo
  readDir : List Char → Except OsError (List DirEntry)
  statfs : List Char → Except OsError Statfs_t
  createErr : List Char → Option OsError
  writeErr : List Char → Option (OsError × Nat)
  removeErr : List Char → Option OsError
  openErr : List Char → Option OpenFailure
  formErrorText : FormFileFailure → String
  formRefused : Body → Bool
  files : List Char → Option (List UInt8)

/-- The world with the content of one path replaced. -/
def World.setFile (w : World) (path : List Char) (content : Option (List UInt8)) : World :=
  { w with files := fun p => if p = path then content else w.files p }

/-- A request as the handlers read it: `path` is `c.Param("path")`, `basicAuth` the
credentials of a well-formed `Authorization: Basic` header. -/
structure Request where
  method : Method
  path : List Char
  basicAuth : Option (String × String)
  body : Body

/-- The data handed to the template `index.html` (the `gin.H` of `handleList`). -/
structure Listing where
  Path : List Char
  Dirs : List FileMetadata
  Files : List FileMetadata
  UsedSpace : String
  TotalSpace : String
  UploadLimit : Int
deriving DecidableEq, Repr

/-- What a request is answered with: the content of a file handed to
`http.serveContent` (the download; the status is 200, or what the range and
conditional headers of the request ask for), a text with a status (`c.String`,
`http.Error`), a redirect, a rendered template (`c.HTML`), `c.AbortWithStatus` after
`c.Header`, or a panic of the handler. -/
inductive Response where
  | file (path : List Char)
  | text (status : Nat) (body : String)
  | redirect (status : Nat) (location : List Char)
  | html (status : Nat) (name : String) (data : Listing)
  | abort (status : Nat) (headers : List (String × String))
  | panic
deriving DecidableEq, Repr

/-! ## Utilities and handlers (main.go, lines 92-184) -/

/-- The variable `stat` after `syscall.Statfs(rootDir, &stat)`: the error is discarded,
so a failed call leaves the zero value. -/
def statfsOrZero (cfg : Config) (w : World) : Statfs_t :=
  match w.statfs cfg.rootDir with
  | Except.ok s => s
  | Except.error _ => ⟨0, 0, 0⟩

/-- Embedding of `getDiskUsage`; `none` is a panic of `humanReadableBytes`. -/
def getDiskUsage (cfg : Config) (w : World) : Option (String × String) :=
  let stat := statfsOrZero cfg w
  let total := wrapUint64 (stat.Blocks * uint64OfInt64 stat.Bsize)
  let used := wrapUint64 (subUint64 stat.Blocks stat.Bfree * uint64OfInt64 stat.Bsize)
  match humanReadableBytes used, humanReadableBytes total with
  | some u, some t => some (u, t)
  | _, _ => none

/-- The path every handler resolves: `filepath.Join(rootDir, filepath.Clean(path))`. -/
def resolve (rootDir path : List Char) : List Char :=
  Join [rootDir, Clean path]

/-- The entry `FileMetadata{Name, IsDir: true, CreatedAt}` appended to `dirs`; `Size`
keeps its zero value. -/
def dirMetadata (info : FileInfo) : FileMetadata :=
  { Name := info.name, Size := 0, CreatedAt := info.modTime.format, IsDir := true }

/-- The entry `FileMetadata{Name, Size, IsDir: false, CreatedAt}` appended to `files`. -/
def fileMetadata (info : FileInfo) : FileMetadata :=
  { Name := info.name, Size := info.size, CreatedAt := info.modTime.format, IsDir := false }

/-- The loop of `handleList` over the directory entries, from the accumulated
`(dirs, files)`; `none` is the early return on a failing `Info()`. -/
def listLoop : List DirEntry → List FileMetadata × List FileMetadata →
    Option (List FileMetadata × List FileMetadata)
  | [], acc => some acc
  | file :: rest, (dirs, files) =>
    match file.info with
    | Except.error _ => none
    | Except.ok info =>
      if info.isDir then listLoop rest (dirs ++ [dirMetadata info], files)
      else listLoop rest (dirs, files ++ [fileMetadata info])

/-- The test `err == nil && !info.IsDir()` on the result of `os.Stat`. -/
def statIsFile (r : Except OsError FileInfo) : Bool :=
  match r with
  | Except.ok info => !info.isDir
  | Except.error _ => false

/-- Image of `isSlashRune` of `net/http`: a slash or a backslash. -/
def isSlashRune (c : Char) : Bool := c == '/' || c == Char.ofNat 92

/-- The runs of a URL path between slash runes. -/
def slashFields : List Char → List (List Char)
  | [] => [[]]
  | c :: rest =>
    if isSlashRune c then [] :: slashFields rest
    else
      match slashFields rest with
      | [] => [[c]]
      | s :: ss => (c :: s) :: ss

/-- Embedding of `containsDotDot` of `net/http`: some run between slash runes is `..`. -/
def containsDotDot (v : List Char) : Bool :=
  (slashFields v).contains ['.', '.']

/-- Embedding of `http.toHTTPError`: the text and the status for a file that cannot be
opened. -/
def toHTTPError : OpenFailure → String × Nat
  | OpenFailure.notExist => ("404 page not found", 404)
  | OpenFailure.permission => ("403 Forbidden", 403)
  | OpenFailure.other => ("500 Internal Server Error", 500)

/-- Embedding of `c.File(name)`, which is `http.ServeFile(c.Writer, c.Request, name)` (Go
standard library): a URL path with a `..` element is refused with status 400, a URL
path that ends in `/index.html` is redirected to `./`, a file that cannot be opened is
answered with the status of `toHTTPError`, and any other file is served. -/
def ServeFile (w : World) (urlPath name : List Char) : Response :=
  if containsDotDot urlPath then Response.text 400 "invalid URL path\n"
  else if "/index.html".toList <:+ urlPath then Response.redirect 301 "./".toList
  else
    match w.openErr name with
    | some failure => Response.text (toHTTPError failure).2 ((toHTTPError failure).1 ++ "\n")
    | none => Response.file name

/-- The first lines of `handleList`: `path := c.Param("path"); if path == "" { path = "/" }`. -/
def requestPath (param : List Char) : List Char :=
  if param = [] then ['/'] else param

/-- Embedding of `handleList`. For the route `/*path` the parameter `path` is the URL path
of the request, which is what `http.ServeFile` inspects. -/
def handleList (cfg : Config) (w : World) (param : List Char) : Response :=
  let path := requestPath param
  let dirPath := resolve cfg.rootDir path
  if statIsFile (w.stat dirPath) then ServeFile w param dirPath
  else
    match w.readDir dirPath with
    | Except.error _ => Response.text 500 "Error reading directory"
    | Except.ok list =>
      match listLoop list ([], []) with
      | none => Response.text 500 "Error reading file info"
      | some (dirs, files) =>
        match getDiskUsage cfg w with
        | none => Response.panic
        | some (usedSpace, totalSpace) =>
          Response.html 200 "index.html"
            { Path := path, Dirs := dirs, Files := files, UsedSpace := usedSpace,
              TotalSpace := totalSpace, UploadLimit := cfg.uploadLimit }

/-- Embedding of `http.MaxBytesReader(w, body, n)` followed by `Request.FormFile("file")`
(Go standard library). The Content-Type is looked at first: a body that is not a
multipart form is refused. The form is then read through the limited reader up to
the end of the closing delimiter line; a negative limit counts as `0`, and the read
fails once more than `n` bytes are asked for. A form that the library refuses for
a reason of its own fails as well. Of the parts read, those with a filename are the
files (a part with an empty filename is a value), and the result is the first file
under the key `file`. The error is its `Error()` text. -/
def formFile (w : World) (limit : Int) (body : Body) : Except String Part :=
  match body with
  | Body.raw _ => Except.error (w.formErrorText FormFileFailure.notMultipart)
  | Body.multipart _ _ parts _ _ =>
    if (max limit 0).toNat < body.readLen then
      Except.error (w.formErrorText FormFileFailure.tooLarge)
    else if w.formRefused body then Except.error (w.formErrorText FormFileFailure.refused)
    else
      match parts.find? (fun p => p.name == "file" && p.filename.getD "" != "") with
      | none => Except.error (w.formErrorText FormFileFailure.missingFile)
      | some p => Except.ok p

/-- Embedding of `handleUpload`: the response and the world afterwards. -/
def handleUpload (cfg : Config) (w : World) (req : Request) : Response × World :=
  let dirPath := resolve cfg.rootDir req.path
  match formFile w cfg.uploadLimit req.body with
  | Except.error err => (Response.text 400 ("Failed to upload file: " ++ err), w)
  | Except.ok part =>
    let filePath := Join [dirPath, (part.filename.getD "").toList]
    match w.createErr filePath with
    | some err => (Response.text 500 ("Failed to save file: " ++ err.msg), w)
    | none =>
      match w.writeErr filePath with
      | some (err, n) =>
        (Response.text 500 ("Failed to save file: " ++ err.msg),
          w.setFile filePath (some (part.content.take n)))
      | none =>
        (Response.text 200 "File uploaded successfully",
          w.setFile filePath (some part.content))

/-- Embedding of `handleDelete`: the response and the world afterwards. -/
def handleDelete (cfg : Config) (w : World) (param : List Char) : Response × World :=
  let filePath := resolve cfg.rootDir param
  match w.removeErr filePath with
  | some err => (Response.text 500 ("Failed to delete file: " ++ err.msg), w)
  | none => (Response.text 200 "File deleted successfully", w.setFile filePath none)

/-! ## Authentication and routing (main.go, lines 55-77) -/

/-- Embedding of `Request.BasicAuth()` on the parsed header: `(user, pass, ok)`. -/
def BasicAuth (req : Request) : String × String × Bool :=
  match req.basicAuth with
  | some (user, pass) => (user, pass, true)
  | none => ("", "", false)

/-- What a middleware does with a request: `c.Next()` or an abort with a status
and headers. -/
inductive Flow where
  | next
  | aborted (status : Nat) (headers : List (String × String))
deriving DecidableEq, Repr

/-- Embedding of the middleware installed when `authEnabled` holds. -/
def authMiddleware (cfg : Config) (req : Request) : Flow :=
  match BasicAuth req with
  | (user, pass, ok) =>
    if !ok || user != cfg.username || pass != cfg.password then
      Flow.aborted 401 [("WWW-Authenticate", "Basic realm=\"Authorization Required\"")]
    else Flow.next

/-- The handlers registered by `init`. -/
inductive Handler where
  | list
  | upload
  | delete
deriving DecidableEq, Repr

/-- The result of serving one request: the response, the world afterwards and the
handler that ran, if any. -/
structure Outcome where
  response : Response
  world : World
  handler : Option Handler

/-- The routes `r.GET`, `r.POST`, `r.DELETE` on `/*path`; any other method has no
route. -/
def route (cfg : Config) (w : World) (req : Request) : Outcome :=
  match req.method with
  | Method.GET => ⟨handleList cfg w req.path, w, some Handler.list⟩
  | Method.POST => ⟨(handleUpload cfg w req).1, (handleUpload cfg w req).2, some Handler.upload⟩
  | Method.DELETE =>
    ⟨(handleDelete cfg w req.path).1, (handleDelete cfg w req.path).2, some Handler.delete⟩
  | Method.other => ⟨Response.text 404 "404 page not found", w, none⟩

/-- The engine built by `init`: the authentication middleware, when enabled, runs before
the route. -/
def serve (cfg : Config) (w : World) (req : Request) : Outcome :=
  if cfg.authEnabled then
    match authMiddleware cfg req with
    | Flow.aborted status headers => ⟨Response.abort status headers, w, none⟩
    | Flow.next => route cfg w req
  else route cfg w req

/-! ## Concrete configurations, worlds and requests

Used as the explicit inputs of the counterexamples and witnesses below. -/

/-- A server rooted at `/srv`, without authentication, with the default upload
limit of 10 MiB. -/
def srvConfig : Config :=
  { rootDir := "/srv".toList, username := "", password := "", uploadLimit := 10485760,
    authEnabled := false }

/-- The same server with an upload limit of 10 bytes. -/
def tinyLimitConfig : Config := { srvConfig with uploadLimit := 10 }

/-- The same server with uploads disabled by a limit of 0. -/
def zeroLimitConfig : Config := { srvConfig with uploadLimit := 0 }

/-- The same server with authentication `admin:secret`. -/
def authConfig : Config :=
  { srvConfig with username := "admin", password := "secret", authEnabled := true }

/-- A server started with `-root ""`. -/
def emptyRootConfig : Config := { srvConfig with rootDir := [] }

/-- The metadata of a directory. -/
def dirInfo : FileInfo :=
  { name := "srv", size := 4096, modTime := ⟨2024, 1, 2, 3, 4, 5⟩, isDir := true }

/-- The metadata of a sub-directory `docs`. -/
def docsInfo : FileInfo :=
  { name := "docs", size := 4096, modTime := ⟨2024, 1, 2, 3, 4, 5⟩, isDir := true }

/-- The metadata of a regular file `a.txt` of 3 bytes. -/
def fileInfo : FileInfo :=
  { name := "a.txt", size := 3, modTime := ⟨2024, 1, 2, 3, 4, 5⟩, isDir := false }

/-- A world in which nothing exists and every creation, write and removal
succeeds. -/
def emptyWorld : World :=
  { stat := fun _ => Except.error ⟨"no such file or directory"⟩,
    readDir := fun _ => Except.error ⟨"no such file or directory"⟩,
    statfs := fun _ => Except.ok ⟨1000, 400, 4096⟩,
    createErr := fun _ => none,
    writeErr := fun _ => none,
    removeErr := fun _ => none,
    openErr := fun _ => none,
    formErrorText := fun failure =>
      match failure with
      | FormFileFailure.tooLarge => "multipart: NextPart: http: request body too large"
      | FormFileFailure.notMultipart => "request Content-Type isn't multipart/form-data"
      | FormFileFailure.refused => "multipart: message too large"
      | FormFileFailure.missingFile => "http: no such file",
    formRefused := fun _ => false,
    files := fun _ => none }

/-- A world whose directories hold the sub-directory `docs` and the file `a.txt`. -/
def listingWorld : World :=
  { emptyWorld with
    stat := fun _ => Except.ok dirInfo,
    readDir := fun _ => Except.ok [⟨Except.ok fileInfo⟩, ⟨Except.ok docsInfo⟩] }

/-- A world whose directories can be read but hold a child that was removed
before its metadata was read, so that `Info()` fails. -/
def brokenChildWorld : World :=
  { emptyWorld with
    stat := fun _ => Except.ok dirInfo,
    readDir := fun _ => Except.ok [⟨Except.error ⟨"lstat /srv/gone: no such file or directory"⟩⟩] }

/-- A world whose directories exist but cannot be read. -/
def unreadableWorld : World :=
  { emptyWorld with
    stat := fun _ => Except.ok dirInfo,
    readDir := fun _ => Except.error ⟨"open /srv: permission denied"⟩ }

/-- A world in which no file can be created. -/
def readOnlyWorld : World :=
  { emptyWorld with createErr := fun _ => some ⟨"open /srv/a.txt: read-only file system"⟩ }

/-- A file part named `file` with filename `a.txt` and the given content. -/
def filePart (content : List UInt8) : Part :=
  { name := "file", filename := some "a.txt", headerLen := 70, content := content }

/-- An upload of the given content to the root of the server, as the usual clients send
it: no preamble, the closing delimiter followed by `CRLF`, no epilogue. -/
def uploadRequest (content : List UInt8) : Request :=
  { method := Method.POST, path := "/".toList, basicAuth := none,
    body := Body.multipart 0 30 [filePart content] 2 0 }

/-- A world in which every path is a regular file that can be opened. -/
def fileWorld : World :=
  { emptyWorld with stat := fun _ => Except.ok fileInfo }

/-- A world in which every path is a regular file that the server may not open. -/
def forbiddenFileWorld : World :=
  { emptyWorld with
    stat := fun _ => Except.ok fileInfo,
    openErr := fun _ => some OpenFailure.permission }

/-- A `GET /` that carries the given credentials. -/
def getRequest (auth : Option (String × String)) : Request :=
  { method := Method.GET, path := "/".toList, basicAuth := auth, body := Body.raw [] }

/-! ## Theorems -/

theorem wrapInt64_of_lt (x : Int) (h0 : 0 ≤ x) (h1 : x < 2 ^ 63) : wrapInt64 x = x := by
  unfold wrapInt64
  omega

theorem pow1024_exp_le (b e : Nat) (hb : b < 2 ^ 64) (h : 1024 ^ (e + 1) ≤ b) : e ≤ 5 := by
  by_contra hc
  have h7 : 7 ≤ e + 1 := by omega
  have h1 : (1024 : Nat) ^ 7 ≤ 1024 ^ (e + 1) := Nat.pow_le_pow_right (by norm_num) h7
  have h2 : (1024 : Nat) ^ 7 = 2 ^ 64 * 64 := by norm_num
  omega

theorem pow1024_lt (e : Nat) (h : e ≤ 5) : (1024 : Nat) ^ (e + 1) < 2 ^ 63 := by
  have h1 : (1024 : Nat) ^ (e + 1) ≤ 1024 ^ 6 := Nat.pow_le_pow_right (by norm_num) (by omega)
  have h2 : (1024 : Nat) ^ 6 < 2 ^ 63 := by norm_num
  omega

/-- Invariant of the unit loop: entered with `n = b / 1024 ^ (e + 1) ≥ 1` and
`div = 1024 ^ (e + 1)`, it ends with `div = 1024 ^ (e2 + 1)` unwrapped, `e2 ≤ 5`
and `1024 ^ (e2 + 1) ≤ b < 1024 ^ (e2 + 2)`. -/
theorem unitLoop_spec (b : Nat) (hb : b < 2 ^ 64) :
    ∀ (n e : Nat), n = b / 1024 ^ (e + 1) → 1 ≤ n →
      ∃ e2, unitLoop n ((1024 : Int) ^ (e + 1)) e = ((1024 : Int) ^ (e2 + 1), e2) ∧ e2 ≤ 5 ∧
        1024 ^ (e2 + 1) ≤ b ∧ b < 1024 ^ (e2 + 2) := by
  intro n
  induction n using Nat.strong_induction_on with
  | _ n ih =>
    intro e hn h1
    have hpos : 0 < 1024 ^ (e + 1) := Nat.pos_pow_of_pos _ (by norm_num)
    have hle : 1024 ^ (e + 1) ≤ b := by
      have h2 := (Nat.le_div_iff_mul_le hpos).1 (hn ▸ h1)
      omega
    by_cases hge : n ≥ 1024
    · rw [unitLoop, dif_pos hge]
      have hle2 : 1024 ^ (e + 1 + 1) ≤ b := by
        have h2 := (Nat.le_div_iff_mul_le hpos).1 (hn ▸ hge)
        rw [pow_succ]; omega
      have he : e + 1 ≤ 5 := pow1024_exp_le b (e + 1) hb hle2
      have hlt := pow1024_lt (e + 1) he
      have hw : wrapInt64 ((1024 : Int) ^ (e + 1) * 1024) = (1024 : Int) ^ (e + 1 + 1) := by
        rw [← pow_succ]
        apply wrapInt64_of_lt
        · positivity
        · exact_mod_cast hlt
      rw [hw]
      apply ih (n / 1024) (by omega) (e + 1)
      · rw [hn, Nat.div_div_eq_div_mul, ← pow_succ]
      · omega
    · rw [unitLoop, dif_neg hge]
      refine ⟨e, rfl, pow1024_exp_le b e hb hle, hle, ?_⟩
      have h2 : b / 1024 ^ (e + 1) < 1024 := by omega
      have h3 := (Nat.div_lt_iff_lt_mul hpos).1 h2
      rw [show e + 2 = e + 1 + 1 from rfl, pow_succ]; omega

theorem unitLoop_1536 : unitLoop (1536 / 1024) 1024 0 = (1024, 0) := by
  rw [unitLoop]; simp

theorem unitLoop_1GiB : unitLoop (1073741824 / 1024) 1024 0 = (1073741824, 2) := by
  rw [unitLoop]; simp; rw [unitLoop]; simp; rw [unitLoop]; simp; decide

theorem unitLetters_get (e : Nat) (h : e ≤ 5) : ∃ c, unitLetters[e]? = some c := by
  have h6 : e < unitLetters.length := by
    have hl : unitLetters.length = 6 := by decide
    omega
  exact ⟨unitLetters[e], List.getElem?_eq_getElem h6⟩

/-- C5: `humanReadableBytes(0)` is `"0 B"`, `humanReadableBytes(1536)` is
`"1.5 KB"` and `humanReadableBytes(1073741824)` is `"1.0 GB"`. -/
theorem humanReadableBytes_examples :
    humanReadableBytes 0 = some "0 B" ∧ humanReadableBytes 1536 = some "1.5 KB" ∧
      humanReadableBytes 1073741824 = some "1.0 GB" := by
  refine ⟨by decide, ?_, ?_⟩
  · have h : ¬ (1536 < 1024) := by decide
    rw [humanReadableBytes, if_neg h, unitLoop_1536]; decide
  · have h : ¬ (1073741824 < 1024) := by decide
    rw [humanReadableBytes, if_neg h, unitLoop_1GiB]; decide

/-- C6: for every `uint64` byte count `b`: below 1024 the result is the decimal
rendering of `b` followed by `" B"`; from 1024 on the loop ends (it is a total
function) with an exponent `exp ≤ 5`, `div = 1024 ^ (exp + 1)` below `2 ^ 63`
(no `int64` overflow), `1024 ^ (exp + 1) ≤ b < 1024 ^ (exp + 2)`, the index
`exp` into `"KMGTPE"` is in range, and the result is the quotient text followed
by a space, the `exp`-th letter of `"KMGTPE"` and `B`. -/
theorem humanReadableBytes_unit (b : Nat) (hb : b < 2 ^ 64) :
    (b < 1024 → humanReadableBytes b = some (toString b ++ " B")) ∧
    (1024 ≤ b → ∃ exp c,
      unitLoop (b / 1024) 1024 0 = ((1024 : Int) ^ (exp + 1), exp) ∧ exp ≤ 5 ∧
      (1024 : Int) ^ (exp + 1) < 2 ^ 63 ∧
      1024 ^ (exp + 1) ≤ b ∧ b < 1024 ^ (exp + 2) ∧
      unitLetters[exp]? = some c ∧ "KMGTPE".toList.get? exp = some c ∧
      humanReadableBytes b =
        some (sprintfF1 (float64OfUint64 b) ((1024 : Int) ^ (exp + 1)) ++ " "
          ++ String.singleton c ++ "B")) := by
  constructor
  · intro h
    rw [humanReadableBytes, if_pos h]
  · intro h
    have h1 : 1 ≤ b / 1024 := by omega
    obtain ⟨e2, hloop, he2, hlo, hhi⟩ := unitLoop_spec b hb (b / 1024) 0 (by norm_num) h1
    obtain ⟨c, hc⟩ := unitLetters_get e2 he2
    have hloop2 : unitLoop (b / 1024) 1024 0 = ((1024 : Int) ^ (e2 + 1), e2) := by
      simpa using hloop
    refine ⟨e2, c, hloop2, he2, ?_, hlo, hhi, hc, ?_, ?_⟩
    · exact_mod_cast pow1024_lt e2 he2
    · rw [List.get?_eq_getElem?]; exact hc
    · have hn : ¬ (b < 1024) := by omega
      rw [humanReadableBytes, if_neg hn, hloop2]
      simp only [hc]

theorem humanReadableBytes_unit_witness :
    (2048 < 1024 → humanReadableBytes 2048 = some (toString 2048 ++ " B")) ∧
    (1024 ≤ 2048 → ∃ exp c,
      unitLoop (2048 / 1024) 1024 0 = ((1024 : Int) ^ (exp + 1), exp) ∧ exp ≤ 5 ∧
      (1024 : Int) ^ (exp + 1) < 2 ^ 63 ∧
      1024 ^ (exp + 1) ≤ 2048 ∧ 2048 < 1024 ^ (exp + 2) ∧
      unitLetters[exp]? = some c ∧ "KMGTPE".toList.get? exp = some c ∧
      humanReadableBytes 2048 =
        some (sprintfF1 (float64OfUint64 2048) ((1024 : Int) ^ (exp + 1)) ++ " "
          ++ String.singleton c ++ "B")) :=
  humanReadableBytes_unit 2048 (by decide)

/-! ### Disk usage never panics -/

theorem humanReadableBytes_isSome (b : Nat) (hb : b < 2 ^ 64) :
    ∃ s, humanReadableBytes b = some s := by
  by_cases h : b < 1024
  · rw [humanReadableBytes, if_pos h]
    exact ⟨_, rfl⟩
  · have h1 : 1 ≤ b / 1024 := by omega
    obtain ⟨e2, hloop, he2, _, _⟩ := unitLoop_spec b hb (b / 1024) 0 (by norm_num) h1
    obtain ⟨c, hc⟩ := unitLetters_get e2 he2
    have hloop2 : unitLoop (b / 1024) 1024 0 = ((1024 : Int) ^ (e2 + 1), e2) := by
      simpa using hloop
    rw [humanReadableBytes, if_neg h, hloop2]
    simp only [hc]
    exact ⟨_, rfl⟩

theorem wrapUint64_lt (x : Nat) : wrapUint64 x < 2 ^ 64 := by
  unfold wrapUint64
  exact Nat.mod_lt _ (by norm_num)

theorem getDiskUsage_isSome (cfg : Config) (w : World) :
    ∃ used total, getDiskUsage cfg w = some (used, total) := by
  unfold getDiskUsage
  simp only []
  obtain ⟨u, hu⟩ := humanReadableBytes_isSome _ (wrapUint64_lt
    (subUint64 (statfsOrZero cfg w).Blocks (statfsOrZero cfg w).Bfree *
      uint64OfInt64 (statfsOrZero cfg w).Bsize))
  obtain ⟨t, ht⟩ := humanReadableBytes_isSome _ (wrapUint64_lt
    ((statfsOrZero cfg w).Blocks * uint64OfInt64 (statfsOrZero cfg w).Bsize))
  exact ⟨u, t, by rw [hu, ht]⟩

/-! ### The listing loop -/

theorem listLoop_ok (infos : List FileInfo) :
    ∀ (list : List DirEntry) (dirs files : List FileMetadata),
      list.map DirEntry.info = infos.map Except.ok →
      listLoop list (dirs, files) =
        some (dirs ++ (infos.filter (fun i => i.isDir)).map dirMetadata,
          files ++ (infos.filter (fun i => !i.isDir)).map fileMetadata) := by
  induction infos with
  | nil =>
    intro list dirs files h
    cases list with
    | nil => simp [listLoop]
    | cons a l => simp at h
  | cons i rest ih =>
    intro list dirs files h
    cases list with
    | nil => simp at h
    | cons a l =>
      simp only [List.map_cons, List.cons.injEq] at h
      obtain ⟨ha, hl⟩ := h
      unfold listLoop
      rw [ha]
      by_cases hd : i.isDir = true
      · simp only [hd, if_true]
        rw [ih l _ _ hl]
        simp [List.filter_cons, hd]
      · simp only [Bool.not_eq_true] at hd
        simp only [hd, Bool.false_eq_true, if_false]
        rw [ih l _ _ hl]
        simp [List.filter_cons, hd]

theorem listLoop_fail (list : List DirEntry) :
    ∀ (acc : List FileMetadata × List FileMetadata),
      (∃ f ∈ list, ∃ e, f.info = Except.error e) → listLoop list acc = none := by
  induction list with
  | nil => intro acc h; simp at h
  | cons a l ih =>
    intro acc h
    obtain ⟨dirs, files⟩ := acc
    unfold listLoop
    cases ha : a.info with
    | error e => rfl
    | ok info =>
      have h2 : ∃ f ∈ l, ∃ e, f.info = Except.error e := by
        obtain ⟨f, hf, e, he⟩ := h
        rcases List.mem_cons.1 hf with rfl | hf2
        · rw [ha] at he; cases he
        · exact ⟨f, hf2, e, he⟩
      simp only []
      split
      · exact ih _ h2
      · exact ih _ h2

theorem filter_length_add (infos : List FileInfo) :
    (infos.filter (fun i => i.isDir)).length + (infos.filter (fun i => !i.isDir)).length
      = infos.length := by
  induction infos with
  | nil => rfl
  | cons i rest ih =>
    by_cases hd : i.isDir = true
    · simp [List.filter_cons, hd]; omega
    · simp only [Bool.not_eq_true] at hd
      simp [List.filter_cons, hd]; omega

/-! ### Authentication -/

theorem authMiddleware_next_iff (cfg : Config) (req : Request) :
    authMiddleware cfg req = Flow.next ↔ req.basicAuth = some (cfg.username, cfg.password) := by
  unfold authMiddleware BasicAuth
  cases h : req.basicAuth with
  | none => simp
  | some up =>
    obtain ⟨u, p⟩ := up
    by_cases hu : u = cfg.username <;> by_cases hp : p = cfg.password <;> simp [hu, hp]

theorem authMiddleware_abort (cfg : Config) (req : Request)
    (h : req.basicAuth ≠ some (cfg.username, cfg.password)) :
    authMiddleware cfg req =
      Flow.aborted 401 [("WWW-Authenticate", "Basic realm=\"Authorization Required\"")] := by
  unfold authMiddleware BasicAuth
  cases hb : req.basicAuth with
  | none => simp
  | some up =>
    obtain ⟨u, p⟩ := up
    rw [hb] at h
    by_cases hu : u = cfg.username
    · by_cases hp : p = cfg.password
      · exact absurd (by rw [hu, hp]) h
      · simp [hu, hp]
    · simp [hu]

/-- C2: with authentication enabled, the middleware lets a request continue if and
only if it carries well-formed Basic credentials equal to the configured pair;
every other request is answered with status 401 and the header
`WWW-Authenticate`, no handler runs and the world is untouched; a request that
continues is served by its route. -/
theorem auth_gate (cfg : Config) (w : World) (req : Request) (h : cfg.authEnabled = true) :
    (authMiddleware cfg req = Flow.next ↔
      ∃ user pass, req.basicAuth = some (user, pass) ∧ user = cfg.username ∧
        pass = cfg.password) ∧
    (req.basicAuth = some (cfg.username, cfg.password) → serve cfg w req = route cfg w req) ∧
    (req.basicAuth ≠ some (cfg.username, cfg.password) →
      (serve cfg w req).response =
        Response.abort 401 [("WWW-Authenticate", "Basic realm=\"Authorization Required\"")] ∧
      (serve cfg w req).handler = none ∧ (serve cfg w req).world = w) := by
  refine ⟨?_, ?_, ?_⟩
  · rw [authMiddleware_next_iff]
    constructor
    · intro h1
      exact ⟨_, _, h1, rfl, rfl⟩
    · rintro ⟨u, p, h1, rfl, rfl⟩
      exact h1
  · intro h1
    unfold serve
    rw [if_pos h, (authMiddleware_next_iff cfg req).2 h1]
  · intro h1
    unfold serve
    rw [if_pos h, authMiddleware_abort cfg req h1]
    exact ⟨rfl, rfl, rfl⟩

theorem auth_gate_witness :
    (authMiddleware authConfig (getRequest (some ("admin", "wrong"))) = Flow.next ↔
      ∃ user pass, (getRequest (some ("admin", "wrong"))).basicAuth = some (user, pass) ∧
        user = authConfig.username ∧ pass = authConfig.password) ∧
    ((getRequest (some ("admin", "wrong"))).basicAuth =
        some (authConfig.username, authConfig.password) →
      serve authConfig emptyWorld (getRequest (some ("admin", "wrong"))) =
        route authConfig emptyWorld (getRequest (some ("admin", "wrong")))) ∧
    ((getRequest (some ("admin", "wrong"))).basicAuth ≠
        some (authConfig.username, authConfig.password) →
      (serve authConfig emptyWorld (getRequest (some ("admin", "wrong")))).response =
        Response.abort 401 [("WWW-Authenticate", "Basic realm=\"Authorization Required\"")] ∧
      (serve authConfig emptyWorld (getRequest (some ("admin", "wrong")))).handler = none ∧
      (serve authConfig emptyWorld (getRequest (some ("admin", "wrong")))).world = emptyWorld) :=
  auth_gate authConfig emptyWorld (getRequest (some ("admin", "wrong"))) rfl

/-! ### `handleList` -/

theorem handleList_of_file (cfg : Config) (w : World) (param : List Char)
    (h : statIsFile (w.stat (resolve cfg.rootDir (requestPath param))) = true) :
    handleList cfg w param = ServeFile w param (resolve cfg.rootDir (requestPath param)) := by
  unfold handleList
  simp only [h, if_true]

theorem toHTTPError_status (failure : OpenFailure) :
    (toHTTPError failure).2 = 404 ∨ (toHTTPError failure).2 = 403 ∨
      (toHTTPError failure).2 = 500 := by
  cases failure
  · exact Or.inl rfl
  · exact Or.inr (Or.inl rfl)
  · exact Or.inr (Or.inr rfl)

/-- What `http.ServeFile` answers, case by case. -/
theorem ServeFile_cases (w : World) (urlPath name : List Char) :
    (containsDotDot urlPath = true ∧ ∃ body, ServeFile w urlPath name = Response.text 400 body) ∨
    (containsDotDot urlPath = false ∧ "/index.html".toList <:+ urlPath ∧
      ∃ location, ServeFile w urlPath name = Response.redirect 301 location) ∨
    (containsDotDot urlPath = false ∧ ¬ "/index.html".toList <:+ urlPath ∧
      ∃ failure, w.openErr name = some failure ∧
        ∃ body, ServeFile w urlPath name = Response.text (toHTTPError failure).2 body) ∨
    (containsDotDot urlPath = false ∧ ¬ "/index.html".toList <:+ urlPath ∧
      w.openErr name = none ∧ ServeFile w urlPath name = Response.file name) := by
  unfold ServeFile
  by_cases h1 : containsDotDot urlPath = true
  · exact Or.inl ⟨h1, _, by rw [if_pos h1]⟩
  · have h1f : containsDotDot urlPath = false := by simpa using h1
    right
    by_cases h2 : "/index.html".toList <:+ urlPath
    · exact Or.inl ⟨h1f, h2, _, by rw [if_neg h1, if_pos h2]⟩
    · right
      cases h3 : w.openErr name with
      | some failure =>
        exact Or.inl ⟨h1f, h2, failure, rfl, _, by rw [if_neg h1, if_neg h2]⟩
      | none =>
        exact Or.inr ⟨h1f, h2, rfl, by rw [if_neg h1, if_neg h2]⟩

theorem handleList_readDir_error (cfg : Config) (w : World) (param : List Char) (e : OsError)
    (h : statIsFile (w.stat (resolve cfg.rootDir (requestPath param))) = false)
    (hr : w.readDir (resolve cfg.rootDir (requestPath param)) = Except.error e) :
    handleList cfg w param = Response.text 500 "Error reading directory" := by
  unfold handleList
  simp only [h, hr, Bool.false_eq_true, if_false]

theorem handleList_info_error (cfg : Config) (w : World) (param : List Char)
    (list : List DirEntry)
    (h : statIsFile (w.stat (resolve cfg.rootDir (requestPath param))) = false)
    (hr : w.readDir (resolve cfg.rootDir (requestPath param)) = Except.ok list)
    (hbad : ∃ f ∈ list, ∃ e, f.info = Except.error e) :
    handleList cfg w param = Response.text 500 "Error reading file info" := by
  unfold handleList
  simp only [h, hr, Bool.false_eq_true, if_false, listLoop_fail list _ hbad]

theorem handleList_listing (cfg : Config) (w : World) (param : List Char)
    (list : List DirEntry) (infos : List FileInfo)
    (h : statIsFile (w.stat (resolve cfg.rootDir (requestPath param))) = false)
    (hr : w.readDir (resolve cfg.rootDir (requestPath param)) = Except.ok list)
    (hinfo : list.map DirEntry.info = infos.map Except.ok) :
    ∃ used total, getDiskUsage cfg w = some (used, total) ∧
      handleList cfg w param = Response.html 200 "index.html"
        { Path := requestPath param,
          Dirs := (infos.filter (fun i => i.isDir)).map dirMetadata,
          Files := (infos.filter (fun i => !i.isDir)).map fileMetadata,
          UsedSpace := used, TotalSpace := total, UploadLimit := cfg.uploadLimit } := by
  obtain ⟨used, total, hdu⟩ := getDiskUsage_isSome cfg w
  refine ⟨used, total, hdu, ?_⟩
  unfold handleList
  have hl := listLoop_ok infos list [] [] hinfo
  simp only [List.nil_append] at hl
  simp only [h, hr, Bool.false_eq_true, if_false, hl, hdu]

theorem entries_ok_or_fail (list : List DirEntry) :
    (∃ infos : List FileInfo, list.map DirEntry.info = infos.map Except.ok) ∨
      (∃ f ∈ list, ∃ e, f.info = Except.error e) := by
  induction list with
  | nil => exact Or.inl ⟨[], rfl⟩
  | cons a l ih =>
    cases ha : a.info with
    | error e => exact Or.inr ⟨a, List.mem_cons_self _ _, e, ha⟩
    | ok i =>
      rcases ih with ⟨infos, hi⟩ | ⟨f, hf, e, he⟩
      · exact Or.inl ⟨i :: infos, by simp [ha, hi]⟩
      · exact Or.inr ⟨f, List.mem_cons_of_mem _ hf, e, he⟩

theorem statIsFile_iff (r : Except OsError FileInfo) :
    statIsFile r = true ↔ ∃ info, r = Except.ok info ∧ info.isDir = false := by
  cases r with
  | error e => simp [statIsFile]
  | ok info => simp [statIsFile]

/-- C3: for a directory (the target is not served as a file) whose read returns the
children `list` and whose children all yield metadata `infos` (in that order),
the listing is rendered with `Dirs` exactly the sub-sequence of the children that
are directories and `Files` exactly the sub-sequence of those that are not, in the
original order: the counts add up to the number of children, every entry of
`Dirs` has `IsDir = true` and every entry of `Files` has `IsDir = false`, and the
entries carry the names (and, for files, the sizes) of their children. -/
theorem handleList_partition (cfg : Config) (w : World) (param : List Char)
    (list : List DirEntry) (infos : List FileInfo)
    (h : statIsFile (w.stat (resolve cfg.rootDir (requestPath param))) = false)
    (hr : w.readDir (resolve cfg.rootDir (requestPath param)) = Except.ok list)
    (hinfo : list.map DirEntry.info = infos.map Except.ok) :
    ∃ data, handleList cfg w param = Response.html 200 "index.html" data ∧
      data.Dirs = (infos.filter (fun i => i.isDir)).map dirMetadata ∧
      data.Files = (infos.filter (fun i => !i.isDir)).map fileMetadata ∧
      data.Dirs.length = (infos.filter (fun i => i.isDir)).length ∧
      data.Files.length = (infos.filter (fun i => !i.isDir)).length ∧
      data.Dirs.length + data.Files.length = list.length ∧
      (∀ m ∈ data.Dirs, m.IsDir = true) ∧ (∀ m ∈ data.Files, m.IsDir = false) ∧
      data.Dirs.map (fun m => m.Name) = (infos.filter (fun i => i.isDir)).map (fun i => i.name) ∧
      data.Files.map (fun m => (m.Name, m.Size)) =
        (infos.filter (fun i => !i.isDir)).map (fun i => (i.name, i.size)) := by
  obtain ⟨used, total, _, hresp⟩ := handleList_listing cfg w param list infos h hr hinfo
  refine ⟨_, hresp, rfl, rfl, ?_, ?_, ?_, ?_, ?_, ?_, ?_⟩
  · simp
  · simp
  · have hlen : list.length = infos.length := by
      have h1 := congrArg List.length hinfo
      simpa using h1
    simp only [List.length_map]
    rw [hlen]
    exact filter_length_add infos
  · intro m hm
    simp only [List.mem_map] at hm
    obtain ⟨i, _, rfl⟩ := hm
    rfl
  · intro m hm
    simp only [List.mem_map] at hm
    obtain ⟨i, _, rfl⟩ := hm
    rfl
  · simp [dirMetadata, Function.comp_def]
  · simp [fileMetadata, Function.comp_def]

theorem handleList_partition_witness :
    ∃ data, handleList srvConfig listingWorld "/".toList = Response.html 200 "index.html" data ∧
      data.Dirs = ([fileInfo, docsInfo].filter (fun i => i.isDir)).map dirMetadata ∧
      data.Files = ([fileInfo, docsInfo].filter (fun i => !i.isDir)).map fileMetadata ∧
      data.Dirs.length = ([fileInfo, docsInfo].filter (fun i => i.isDir)).length ∧
      data.Files.length = ([fileInfo, docsInfo].filter (fun i => !i.isDir)).length ∧
      data.Dirs.length + data.Files.length =
        [(⟨Except.ok fileInfo⟩ : DirEntry), ⟨Except.ok docsInfo⟩].length ∧
      (∀ m ∈ data.Dirs, m.IsDir = true) ∧ (∀ m ∈ data.Files, m.IsDir = false) ∧
      data.Dirs.map (fun m => m.Name) =
        ([fileInfo, docsInfo].filter (fun i => i.isDir)).map (fun i => i.name) ∧
      data.Files.map (fun m => (m.Name, m.Size)) =
        ([fileInfo, docsInfo].filter (fun i => !i.isDir)).map (fun i => (i.name, i.size)) :=
  handleList_partition srvConfig listingWorld "/".toList
    [⟨Except.ok fileInfo⟩, ⟨Except.ok docsInfo⟩] [fileInfo, docsInfo] rfl rfl rfl

/-- C4, as amended: the target of a GET is answered in exactly one of the following
ways, decided by the results of `os.Stat`, `os.ReadDir` and `Info()`. A target that
exists and is not a directory is handed to `c.File`, that is `http.ServeFile`, which
answers status 400 when the URL path holds a `..` element, redirects with status
301 when the URL path ends in `/index.html`, answers status 404, 403 or 500 when
the file cannot be opened, and otherwise serves the file (the download).
Otherwise, when the directory read fails (the target does not exist or cannot be
read) the answer is status 500 `Error reading directory`; when the read succeeds
but a child's metadata cannot be read the answer is status 500 `Error reading file
info`; and when the read succeeds and every child yields metadata the answer is
the rendered listing with status 200. The cases exclude each other and cover
every target, and the failures carry no listing. -/
theorem handleList_dispatch (cfg : Config) (w : World) (param : List Char) :
    ((∃ info, w.stat (resolve cfg.rootDir (requestPath param)) = Except.ok info ∧
        info.isDir = false) ∧
      ((containsDotDot param = true ∧ ∃ body, handleList cfg w param = Response.text 400 body) ∨
      (containsDotDot param = false ∧ "/index.html".toList <:+ param ∧
        ∃ location, handleList cfg w param = Response.redirect 301 location) ∨
      (containsDotDot param = false ∧ ¬ "/index.html".toList <:+ param ∧
        ∃ failure, w.openErr (resolve cfg.rootDir (requestPath param)) = some failure ∧
          ((toHTTPError failure).2 = 404 ∨ (toHTTPError failure).2 = 403 ∨
            (toHTTPError failure).2 = 500) ∧
          ∃ body, handleList cfg w param = Response.text (toHTTPError failure).2 body) ∨
      (containsDotDot param = false ∧ ¬ "/index.html".toList <:+ param ∧
        w.openErr (resolve cfg.rootDir (requestPath param)) = none ∧
        handleList cfg w param = Response.file (resolve cfg.rootDir (requestPath param))))) ∨
    ((¬ ∃ info, w.stat (resolve cfg.rootDir (requestPath param)) = Except.ok info ∧
        info.isDir = false) ∧
      (∃ e, w.readDir (resolve cfg.rootDir (requestPath param)) = Except.error e) ∧
      handleList cfg w param = Response.text 500 "Error reading directory") ∨
    ((¬ ∃ info, w.stat (resolve cfg.rootDir (requestPath param)) = Except.ok info ∧
        info.isDir = false) ∧
      (∃ list, w.readDir (resolve cfg.rootDir (requestPath param)) = Except.ok list ∧
        ∃ f ∈ list, ∃ e, f.info = Except.error e) ∧
      handleList cfg w param = Response.text 500 "Error reading file info") ∨
    ((¬ ∃ info, w.stat (resolve cfg.rootDir (requestPath param)) = Except.ok info ∧
        info.isDir = false) ∧
      (∃ list, w.readDir (resolve cfg.rootDir (requestPath param)) = Except.ok list ∧
        ∀ f ∈ list, ∃ info, f.info = Except.ok info) ∧
      ∃ data, handleList cfg w param = Response.html 200 "index.html" data) := by
  by_cases hf : statIsFile (w.stat (resolve cfg.rootDir (requestPath param))) = true
  · refine Or.inl ⟨(statIsFile_iff _).1 hf, ?_⟩
    rw [handleList_of_file cfg w param hf]
    rcases ServeFile_cases w param (resolve cfg.rootDir (requestPath param)) with
      h | h | ⟨h1, h2, failure, h3, h4⟩ | h
    · exact Or.inl h
    · exact Or.inr (Or.inl h)
    · exact Or.inr (Or.inr (Or.inl ⟨h1, h2, failure, h3, toHTTPError_status failure, h4⟩))
    · exact Or.inr (Or.inr (Or.inr h))
  · have hnot : ¬ ∃ info, w.stat (resolve cfg.rootDir (requestPath param)) = Except.ok info ∧
        info.isDir = false := fun hx => hf ((statIsFile_iff _).2 hx)
    simp only [Bool.not_eq_true] at hf
    right
    cases hr : w.readDir (resolve cfg.rootDir (requestPath param)) with
    | error e =>
      exact Or.inl ⟨hnot, ⟨e, rfl⟩, handleList_readDir_error cfg w param e hf hr⟩
    | ok list =>
      right
      rcases entries_ok_or_fail list with ⟨infos, hi⟩ | hbad
      · right
        refine ⟨hnot, ⟨list, rfl, ?_⟩, ?_⟩
        · intro f hfm
          have h1 : f.info ∈ list.map DirEntry.info := List.mem_map_of_mem _ hfm
          rw [hi] at h1
          obtain ⟨i, _, hi2⟩ := List.mem_map.1 h1
          exact ⟨i, hi2.symm⟩
        · obtain ⟨used, total, _, hresp⟩ := handleList_listing cfg w param list infos hf hr hi
          exact ⟨_, hresp⟩
      · exact Or.inl ⟨hnot, ⟨list, rfl, hbad⟩, handleList_info_error cfg w param list hf hr hbad⟩

/-- C4, counterexample: the target `/srv` is a directory and its read succeeds, yet the
answer is not the listing with status 200 but status 500, because the metadata of
a child cannot be read. -/
theorem handleList_readable_directory_counterexample :
    (∃ info, brokenChildWorld.stat (resolve srvConfig.rootDir (requestPath "/".toList)) =
        Except.ok info ∧ info.isDir = true) ∧
    (∃ list, brokenChildWorld.readDir (resolve srvConfig.rootDir (requestPath "/".toList)) =
        Except.ok list) ∧
    handleList srvConfig brokenChildWorld "/".toList =
      Response.text 500 "Error reading file info" ∧
    ¬ ∃ data, handleList srvConfig brokenChildWorld "/".toList =
      Response.html 200 "index.html" data := by
  refine ⟨⟨dirInfo, rfl, rfl⟩, ⟨_, rfl⟩, by decide, ?_⟩
  have h : handleList srvConfig brokenChildWorld "/".toList =
      Response.text 500 "Error reading file info" := by decide
  rw [h]
  rintro ⟨data, hd⟩
  cases hd

/-! ### `handleUpload` and `handleDelete` -/

theorem Part.content_le_wireLen (b : Nat) (p : Part) : p.content.length ≤ p.wireLen b := by
  unfold Part.wireLen
  omega

theorem readLen_ge_of_mem (pre b : Nat) (parts : List Part) (closing epilogue : Nat) (p : Part)
    (hp : p ∈ parts) :
    p.content.length + 4 ≤ (Body.multipart pre b parts closing epilogue).readLen := by
  have h1 : p.wireLen b ≤ (parts.map (Part.wireLen b)).sum :=
    List.single_le_sum (fun _ _ => Nat.zero_le _) _ (List.mem_map_of_mem _ hp)
  have h2 := Part.content_le_wireLen b p
  simp only [Body.readLen]
  omega

theorem formFile_too_large (w : World) (limit : Int) (pre b : Nat) (parts : List Part)
    (closing epilogue : Nat)
    (h : (max limit 0).toNat < (Body.multipart pre b parts closing epilogue).readLen) :
    formFile w limit (Body.multipart pre b parts closing epilogue) =
      Except.error (w.formErrorText FormFileFailure.tooLarge) := by
  unfold formFile
  simp only [h, if_true]

theorem handleUpload_of_formFile_error (cfg : Config) (w : World) (req : Request) (err : String)
    (h : formFile w cfg.uploadLimit req.body = Except.error err) :
    handleUpload cfg w req = (Response.text 400 ("Failed to upload file: " ++ err), w) := by
  unfold handleUpload
  simp only [h]

theorem failure_ne_success (err : String) :
    Response.text 400 ("Failed to upload file: " ++ err) ≠
      Response.text 200 "File uploaded successfully" := by
  intro hc
  injection hc with h1 h2
  exact absurd h1 (by decide)

/-- C7: for every upload limit and every multipart upload that carries a part whose
content is larger than the limit, `handleUpload` answers with status 400 and the
text of the error of `FormFile` (never with `File uploaded successfully`) and leaves
the world as it was: the size-bounded reader fails inside `FormFile`, before
`os.Create` is reached. -/
theorem handleUpload_over_limit (cfg : Config) (w : World) (req : Request)
    (pre b : Nat) (parts : List Part) (closing epilogue : Nat) (part : Part)
    (hbody : req.body = Body.multipart pre b parts closing epilogue)
    (hpart : part ∈ parts) (hsize : cfg.uploadLimit < (part.content.length : Int)) :
    (∃ err, handleUpload cfg w req =
      (Response.text 400 ("Failed to upload file: " ++ err), w)) ∧
    (handleUpload cfg w req).1 ≠ Response.text 200 "File uploaded successfully" ∧
    (handleUpload cfg w req).2 = w := by
  have hlen := readLen_ge_of_mem pre b parts closing epilogue part hpart
  have hlt : (max cfg.uploadLimit 0).toNat <
      (Body.multipart pre b parts closing epilogue).readLen := by
    omega
  have hform := formFile_too_large w cfg.uploadLimit pre b parts closing epilogue hlt
  rw [← hbody] at hform
  have h := handleUpload_of_formFile_error cfg w req _ hform
  refine ⟨⟨_, h⟩, ?_, ?_⟩
  · rw [h]
    exact failure_ne_success _
  · rw [h]

theorem handleUpload_over_limit_witness :
    (∃ err, handleUpload tinyLimitConfig emptyWorld (uploadRequest (List.replicate 11 0)) =
      (Response.text 400 ("Failed to upload file: " ++ err), emptyWorld)) ∧
    (handleUpload tinyLimitConfig emptyWorld (uploadRequest (List.replicate 11 0))).1 ≠
      Response.text 200 "File uploaded successfully" ∧
    (handleUpload tinyLimitConfig emptyWorld (uploadRequest (List.replicate 11 0))).2 =
      emptyWorld :=
  handleUpload_over_limit tinyLimitConfig emptyWorld (uploadRequest (List.replicate 11 0))
    0 30 [filePart (List.replicate 11 0)] 2 0 (filePart (List.replicate 11 0)) rfl
    (List.mem_singleton.2 rfl) (by decide)

/-- C8, as amended: for every upload limit and every multipart upload whose request
body, read up to the end of the closing delimiter line (any preamble, the delimiter
lines, the part headers and the content of the parts), is at most the limit, that
the library does not refuse for a limit of its own, and that has a file part under
the key `file` with a filename: when `os.Create` of the destination and the write
to it succeed, `handleUpload` answers with status 200 and afterwards the file at
`filepath.Join(target directory, filename)` holds exactly the uploaded bytes. -/
theorem handleUpload_within_limit (cfg : Config) (w : World) (req : Request)
    (pre b : Nat) (parts : List Part) (closing epilogue : Nat) (part : Part)
    (hbody : req.body = Body.multipart pre b parts closing epilogue)
    (hpart : parts.find? (fun p => p.name == "file" && p.filename.getD "" != "") = some part)
    (hsize : (req.body.readLen : Int) ≤ cfg.uploadLimit)
    (hlib : w.formRefused req.body = false)
    (hcreate : w.createErr
      (Join [resolve cfg.rootDir req.path, (part.filename.getD "").toList]) = none)
    (hwrite : w.writeErr
      (Join [resolve cfg.rootDir req.path, (part.filename.getD "").toList]) = none) :
    (handleUpload cfg w req).1 = Response.text 200 "File uploaded successfully" ∧
    (handleUpload cfg w req).2.files
      (Join [resolve cfg.rootDir req.path, (part.filename.getD "").toList]) =
        some part.content ∧
    ((handleUpload cfg w req).2.files
      (Join [resolve cfg.rootDir req.path, (part.filename.getD "").toList])).map List.length =
        some part.content.length := by
  have hform : formFile w cfg.uploadLimit req.body = Except.ok part := by
    have hn : ¬ (max cfg.uploadLimit 0).toNat < req.body.readLen := by omega
    rw [hbody] at hn hlib ⊢
    unfold formFile
    simp only [hn, if_false, hlib, Bool.false_eq_true, hpart]
  have h : handleUpload cfg w req =
      (Response.text 200 "File uploaded successfully",
        w.setFile (Join [resolve cfg.rootDir req.path, (part.filename.getD "").toList])
          (some part.content)) := by
    unfold handleUpload
    simp only [hform, hcreate, hwrite]
  rw [h]
  simp [World.setFile]

theorem handleUpload_within_limit_witness :
    (handleUpload srvConfig emptyWorld (uploadRequest [1, 2, 3])).1 =
      Response.text 200 "File uploaded successfully" ∧
    (handleUpload srvConfig emptyWorld (uploadRequest [1, 2, 3])).2.files
      (Join [resolve srvConfig.rootDir (uploadRequest [1, 2, 3]).path,
        ((filePart [1, 2, 3]).filename.getD "").toList]) = some (filePart [1, 2, 3]).content ∧
    ((handleUpload srvConfig emptyWorld (uploadRequest [1, 2, 3])).2.files
      (Join [resolve srvConfig.rootDir (uploadRequest [1, 2, 3]).path,
        ((filePart [1, 2, 3]).filename.getD "").toList])).map List.length =
      some (filePart [1, 2, 3]).content.length :=
  handleUpload_within_limit srvConfig emptyWorld (uploadRequest [1, 2, 3]) 0 30
    [filePart [1, 2, 3]] 2 0 (filePart [1, 2, 3]) rfl rfl (by decide) rfl rfl rfl

/-- C8, counterexample: with an upload limit of 10 bytes, a well-formed upload of a file
of exactly 10 bytes, in a world where creation and writing succeed and the library
refuses nothing, is answered with status 400 and not with the success text, and
creates nothing: the request body, which is the file together with the multipart
framing, is larger than the limit. -/
theorem handleUpload_size_at_limit_counterexample :
    ((filePart (List.replicate 10 0)).content.length : Int) ≤ tinyLimitConfig.uploadLimit ∧
    (∀ p, emptyWorld.createErr p = none ∧ emptyWorld.writeErr p = none) ∧
    (∃ err, handleUpload tinyLimitConfig emptyWorld (uploadRequest (List.replicate 10 0)) =
      (Response.text 400 ("Failed to upload file: " ++ err), emptyWorld)) ∧
    (handleUpload tinyLimitConfig emptyWorld (uploadRequest (List.replicate 10 0))).1 ≠
      Response.text 200 "File uploaded successfully" := by
  have h := handleUpload_of_formFile_error tinyLimitConfig emptyWorld
    (uploadRequest (List.replicate 10 0)) _
    (formFile_too_large emptyWorld tinyLimitConfig.uploadLimit 0 30
      [filePart (List.replicate 10 0)] 2 0 (by decide))
  refine ⟨by decide, fun p => ⟨rfl, rfl⟩, ⟨_, h⟩, ?_⟩
  rw [h]
  exact failure_ne_success _

/-- C9: with an upload limit of 0, every POST, whatever its body, is answered with
status 400 (never with `File uploaded successfully`) and leaves the world as it
was. -/
theorem handleUpload_disabled (cfg : Config) (w : World) (req : Request)
    (h0 : cfg.uploadLimit = 0) :
    (∃ err, handleUpload cfg w req = (Response.text 400 ("Failed to upload file: " ++ err), w)) ∧
    (handleUpload cfg w req).1 ≠ Response.text 200 "File uploaded successfully" ∧
    (handleUpload cfg w req).2 = w := by
  have hex : ∃ err, formFile w cfg.uploadLimit req.body = Except.error err := by
    cases hb : req.body with
    | raw bytes => exact ⟨_, rfl⟩
    | multipart pre b parts closing epilogue =>
      refine ⟨_, formFile_too_large w _ pre b parts closing epilogue ?_⟩
      rw [h0]
      simp only [Body.readLen]
      have : (max (0 : Int) 0).toNat = 0 := by decide
      omega
  obtain ⟨err, herr⟩ := hex
  have h := handleUpload_of_formFile_error cfg w req err herr
  refine ⟨⟨err, h⟩, ?_, ?_⟩
  · rw [h]
    exact failure_ne_success _
  · rw [h]

theorem handleUpload_disabled_witness :
    (∃ err, handleUpload zeroLimitConfig emptyWorld (uploadRequest []) =
      (Response.text 400 ("Failed to upload file: " ++ err), emptyWorld)) ∧
    (handleUpload zeroLimitConfig emptyWorld (uploadRequest [])).1 ≠
      Response.text 200 "File uploaded successfully" ∧
    (handleUpload zeroLimitConfig emptyWorld (uploadRequest [])).2 = emptyWorld :=
  handleUpload_disabled zeroLimitConfig emptyWorld (uploadRequest []) rfl

/-! ### Failing operating-system calls -/

theorem msg_infix_body (label msg : String) : msg.toList <:+: (label ++ msg).toList := by
  rw [String.toList, String.toList, String.data_append]
  exact (List.suffix_append _ _).isInfix

theorem getDiskUsage_statfs_error (cfg : Config) (w : World) (e : OsError)
    (h : w.statfs cfg.rootDir = Except.error e) : getDiskUsage cfg w = some ("0 B", "0 B") := by
  have hz : statfsOrZero cfg w = ⟨0, 0, 0⟩ := by
    unfold statfsOrZero
    rw [h]
  unfold getDiskUsage
  rw [hz]
  decide

/-- C10, as amended: a failing `os.Create`, a failing write of the upload and a failing
`os.Remove` are answered with status 500 and a body that ends with the error
message of the operating system; a failing `os.ReadDir` and a failing `Info()` of a
child are answered with status 500 and the fixed bodies `Error reading directory`
and `Error reading file info`. -/
theorem os_failure_responses (cfg : Config) (w : World) :
    (∀ (req : Request) (part : Part) (err : OsError),
      formFile w cfg.uploadLimit req.body = Except.ok part →
      w.createErr (Join [resolve cfg.rootDir req.path, (part.filename.getD "").toList]) =
        some err →
      (handleUpload cfg w req).1 = Response.text 500 ("Failed to save file: " ++ err.msg) ∧
      err.msg.toList <:+: ("Failed to save file: " ++ err.msg).toList) ∧
    (∀ (req : Request) (part : Part) (err : OsError) (n : Nat),
      formFile w cfg.uploadLimit req.body = Except.ok part →
      w.createErr (Join [resolve cfg.rootDir req.path, (part.filename.getD "").toList]) =
        none →
      w.writeErr (Join [resolve cfg.rootDir req.path, (part.filename.getD "").toList]) =
        some (err, n) →
      (handleUpload cfg w req).1 = Response.text 500 ("Failed to save file: " ++ err.msg) ∧
      err.msg.toList <:+: ("Failed to save file: " ++ err.msg).toList) ∧
    (∀ (param : List Char) (err : OsError),
      w.removeErr (resolve cfg.rootDir param) = some err →
      (handleDelete cfg w param).1 = Response.text 500 ("Failed to delete file: " ++ err.msg) ∧
      err.msg.toList <:+: ("Failed to delete file: " ++ err.msg).toList) ∧
    (∀ (param : List Char) (err : OsError),
      statIsFile (w.stat (resolve cfg.rootDir (requestPath param))) = false →
      w.readDir (resolve cfg.rootDir (requestPath param)) = Except.error err →
      handleList cfg w param = Response.text 500 "Error reading directory") ∧
    (∀ (param : List Char) (list : List DirEntry),
      statIsFile (w.stat (resolve cfg.rootDir (requestPath param))) = false →
      w.readDir (resolve cfg.rootDir (requestPath param)) = Except.ok list →
      (∃ f ∈ list, ∃ err, f.info = Except.error err) →
      handleList cfg w param = Response.text 500 "Error reading file info") := by
  refine ⟨?_, ?_, ?_, ?_, ?_⟩
  · intro req part err hform hcreate
    refine ⟨?_, msg_infix_body _ _⟩
    unfold handleUpload
    simp only [hform, hcreate]
  · intro req part err n hform hcreate hwrite
    refine ⟨?_, msg_infix_body _ _⟩
    unfold handleUpload
    simp only [hform, hcreate, hwrite]
  · intro param err hrem
    refine ⟨?_, msg_infix_body _ _⟩
    unfold handleDelete
    simp only [hrem]
  · intro param err hf hr
    exact handleList_readDir_error cfg w param err hf hr
  · intro param list hf hr hbad
    exact handleList_info_error cfg w param list hf hr hbad

theorem os_failure_responses_witness :
    ((handleUpload srvConfig readOnlyWorld (uploadRequest [1, 2, 3])).1 =
        Response.text 500 ("Failed to save file: " ++ "open /srv/a.txt: read-only file system") ∧
      "open /srv/a.txt: read-only file system".toList <:+:
        ("Failed to save file: " ++ "open /srv/a.txt: read-only file system").toList) ∧
    handleList srvConfig unreadableWorld "/".toList =
      Response.text 500 "Error reading directory" :=
  ⟨(os_failure_responses srvConfig readOnlyWorld).1 (uploadRequest [1, 2, 3])
      (filePart [1, 2, 3]) ⟨"open /srv/a.txt: read-only file system"⟩ rfl rfl,
    (os_failure_responses srvConfig unreadableWorld).2.2.2.1 "/".toList
      ⟨"open /srv: permission denied"⟩ rfl rfl⟩

/-- C10, counterexample: reading the directory `/srv` fails with `open /srv: permission
denied`; the answer has status 500, but its body is `Error reading directory`, which
does not include the error message of the operating system. -/
theorem readDir_error_message_counterexample :
    unreadableWorld.readDir (resolve srvConfig.rootDir (requestPath "/".toList)) =
      Except.error ⟨"open /srv: permission denied"⟩ ∧
    handleList srvConfig unreadableWorld "/".toList =
      Response.text 500 "Error reading directory" ∧
    ¬ ("open /srv: permission denied".toList <:+: "Error reading directory".toList) := by
  refine ⟨rfl, by decide, by decide⟩

/-! ### `filepath.Clean`: the loop, element by element -/

theorem isPathSeparator_iff (c : Char) : isPathSeparator c = true ↔ c = '/' := by
  simp [isPathSeparator]

theorem atElementEnd_append_sep (a b : List Char) :
    atElementEnd (a ++ '/' :: b) = atElementEnd a := by
  cases a with
  | nil => simp [atElementEnd, isPathSeparator]
  | cons c t => simp [atElementEnd]

theorem head?_append_sep (a b : List Char) :
    ((a ++ '/' :: b).head? = some '.') ↔ (a.head? = some '.') := by
  cases a with
  | nil => simp
  | cons c t => simp

theorem atElementEnd_tail_append_sep (a b : List Char) (h : a.head? = some '.') :
    atElementEnd (a ++ '/' :: b).tail = atElementEnd a.tail := by
  cases a with
  | nil => simp at h
  | cons c t =>
    simp only [List.cons_append, List.tail_cons]
    exact atElementEnd_append_sep t b

theorem cleanLoop_nil (rooted : Bool) (m : Scan) (st : Lazybuf) :
    cleanLoop rooted m [] st = st := by
  cases m <;> rfl

theorem cleanLoop_copy_cons (rooted : Bool) (c : Char) (rest : List Char) (st : Lazybuf) :
    cleanLoop rooted Scan.copy (c :: rest) st =
      if isPathSeparator c then cleanLoop rooted Scan.element rest st
      else cleanLoop rooted Scan.copy rest { st with buf := st.buf ++ [c] } := rfl

theorem cleanLoop_skip_cons (rooted : Bool) (c : Char) (rest : List Char) (st : Lazybuf) :
    cleanLoop rooted Scan.skip (c :: rest) st = cleanLoop rooted Scan.element rest st := rfl

theorem cleanLoop_element_cons (rooted : Bool) (c : Char) (rest : List Char) (st : Lazybuf) :
    cleanLoop rooted Scan.element (c :: rest) st =
      if isPathSeparator c then cleanLoop rooted Scan.element rest st
      else if c = '.' ∧ atElementEnd rest then cleanLoop rooted Scan.element rest st
      else if c = '.' ∧ rest.head? = some '.' ∧ atElementEnd rest.tail then
        cleanLoop rooted Scan.skip rest (dotdotElement rooted st)
      else cleanLoop rooted Scan.copy rest
        { st with buf := (startElement rooted st).buf ++ [c] } := rfl

/-- Reading `a`, then a separator, then `b` is reading `b` from the element start in the
state reached at the end of `a`: the end of the input and a separator close an
element in the same way. -/
theorem cleanLoop_append_sep (rooted : Bool) (b : List Char) :
    ∀ (a : List Char) (m : Scan) (st : Lazybuf),
      cleanLoop rooted m (a ++ '/' :: b) st =
        cleanLoop rooted Scan.element b (cleanLoop rooted m a st) := by
  intro a
  induction a with
  | nil =>
    intro m st
    rw [cleanLoop_nil, List.nil_append]
    cases m with
    | copy => rw [cleanLoop_copy_cons]; simp [isPathSeparator]
    | skip => rw [cleanLoop_skip_cons]
    | element => rw [cleanLoop_element_cons]; simp [isPathSeparator]
  | cons c t ih =>
    intro m st
    rw [List.cons_append]
    cases m with
    | copy =>
      rw [cleanLoop_copy_cons, cleanLoop_copy_cons]
      split
      · exact ih _ _
      · exact ih _ _
    | skip =>
      rw [cleanLoop_skip_cons, cleanLoop_skip_cons]
      exact ih _ _
    | element =>
      rw [cleanLoop_element_cons, cleanLoop_element_cons, atElementEnd_append_sep]
      by_cases h1 : isPathSeparator c = true
      · rw [if_pos h1, if_pos h1]
        exact ih _ _
      · rw [if_neg h1, if_neg h1]
        by_cases h2 : c = '.' ∧ atElementEnd t = true
        · rw [if_pos h2, if_pos h2]
          exact ih _ _
        · rw [if_neg h2, if_neg h2]
          by_cases h3 : t.head? = some '.'
          · rw [atElementEnd_tail_append_sep t b h3]
            have h4 : (t ++ '/' :: b).head? = some '.' := (head?_append_sep t b).2 h3
            by_cases h5 : c = '.' ∧ t.head? = some '.' ∧ atElementEnd t.tail = true
            · have h6 : c = '.' ∧ (t ++ '/' :: b).head? = some '.' ∧ atElementEnd t.tail = true :=
                ⟨h5.1, h4, h5.2.2⟩
              rw [if_pos h5, if_pos h6]
              exact ih _ _
            · have h6 : ¬ (c = '.' ∧ (t ++ '/' :: b).head? = some '.' ∧
                  atElementEnd t.tail = true) := fun hx => h5 ⟨hx.1, h3, hx.2.2⟩
              rw [if_neg h5, if_neg h6]
              exact ih _ _
          · have h5 : ¬ (c = '.' ∧ t.head? = some '.' ∧ atElementEnd t.tail = true) :=
              fun hx => h3 hx.2.1
            have h6 : ¬ (c = '.' ∧ (t ++ '/' :: b).head? = some '.' ∧
                atElementEnd (t ++ '/' :: b).tail = true) :=
              fun hx => h3 ((head?_append_sep t b).1 hx.2.1)
            rw [if_neg h5, if_neg h6]
            exact ih _ _

/-! ### One path element -/

theorem cleanLoop_copy_sepFree (rooted : Bool) :
    ∀ (e : List Char) (st : Lazybuf), '/' ∉ e →
      cleanLoop rooted Scan.copy e st = { st with buf := st.buf ++ e } := by
  intro e
  induction e with
  | nil => intro st _; rw [cleanLoop_nil]; simp
  | cons c t ih =>
    intro st h
    have hc : isPathSeparator c = false := by
      simp only [isPathSeparator, beq_eq_false_iff_ne, ne_eq]
      intro hx
      exact h (by rw [hx]; exact List.mem_cons_self _ _)
    have ht : '/' ∉ t := fun hx => h (List.mem_cons_of_mem _ hx)
    rw [cleanLoop_copy_cons, hc]
    simp only [Bool.false_eq_true, if_false]
    rw [ih _ ht]
    simp

theorem cleanLoop_element_dot (rooted : Bool) (st : Lazybuf) :
    cleanLoop rooted Scan.element ['.'] st = st := by
  rw [cleanLoop_element_cons]
  simp [isPathSeparator, atElementEnd, cleanLoop_nil]

theorem cleanLoop_element_dotdot (rooted : Bool) (st : Lazybuf) :
    cleanLoop rooted Scan.element ['.', '.'] st = dotdotElement rooted st := by
  rw [cleanLoop_element_cons]
  simp [isPathSeparator, atElementEnd, cleanLoop_skip_cons, cleanLoop_nil]

theorem atElementEnd_sepFree (t : List Char) (h : '/' ∉ t) : atElementEnd t = true ↔ t = [] := by
  cases t with
  | nil => simp [atElementEnd]
  | cons c r =>
    simp only [atElementEnd, isPathSeparator, beq_iff_eq, reduceCtorEq, iff_false]
    intro hx
    exact h (by rw [hx]; exact List.mem_cons_self _ _)

theorem cleanLoop_element_normal (rooted : Bool) (s : List Char) (st : Lazybuf)
    (h : normalElement s) :
    cleanLoop rooted Scan.element s st =
      { st with buf := (startElement rooted st).buf ++ s } := by
  obtain ⟨hne, hsep, hdot, hdd⟩ := h
  cases s with
  | nil => exact absurd rfl hne
  | cons c t =>
    have hc : isPathSeparator c = false := by
      simp only [isPathSeparator, beq_eq_false_iff_ne, ne_eq]
      intro hx
      exact hsep (by rw [hx]; exact List.mem_cons_self _ _)
    have ht : '/' ∉ t := fun hx => hsep (List.mem_cons_of_mem _ hx)
    have h2 : ¬ (c = '.' ∧ atElementEnd t = true) := by
      rintro ⟨h2a, h2b⟩
      rw [atElementEnd_sepFree t ht] at h2b
      exact hdot (by rw [h2a, h2b])
    have h3 : ¬ (c = '.' ∧ t.head? = some '.' ∧ atElementEnd t.tail = true) := by
      rintro ⟨h3a, h3b, h3c⟩
      cases t with
      | nil => simp at h3b
      | cons c2 t2 =>
        simp only [List.head?_cons, Option.some.injEq] at h3b
        have ht2 : '/' ∉ t2 := fun hx => ht (List.mem_cons_of_mem _ hx)
        simp only [List.tail_cons] at h3c
        rw [atElementEnd_sepFree t2 ht2] at h3c
        exact hdd (by rw [h3a, h3b, h3c])
    rw [cleanLoop_element_cons, hc]
    simp only [Bool.false_eq_true, if_false]
    rw [if_neg h2, if_neg h3, cleanLoop_copy_sepFree rooted t _ ht]
    simp

/-- The text of a path is read element by element. -/
theorem cleanLoop_joinSep (rooted : Bool) :
    ∀ (segs : List (List Char)) (st : Lazybuf),
      cleanLoop rooted Scan.element (joinSep segs) st =
        segs.foldl (fun acc s => cleanLoop rooted Scan.element s acc) st := by
  intro segs
  induction segs with
  | nil => intro st; simp [joinSep, cleanLoop_nil]
  | cons s ss ih =>
    intro st
    cases ss with
    | nil => simp [joinSep]
    | cons s2 ss2 =>
      rw [joinSep, cleanLoop_append_sep, ih]
      simp

/-! ### Components and their text -/

theorem components_cons (c : Char) (t : List Char) :
    components (c :: t) =
      if isPathSeparator c then [] :: components t
      else
        match components t with
        | [] => [[c]]
        | s :: ss => (c :: s) :: ss := rfl

theorem joinSep_cons_cons (s s2 : List Char) (ss : List (List Char)) :
    joinSep (s :: s2 :: ss) = s ++ '/' :: joinSep (s2 :: ss) := rfl

theorem components_ne_nil (l : List Char) : components l ≠ [] := by
  cases l with
  | nil => simp [components]
  | cons c t =>
    unfold components
    split
    · simp
    · split <;> simp

theorem joinSep_components (l : List Char) : joinSep (components l) = l := by
  induction l with
  | nil => rfl
  | cons c t ih =>
    unfold components
    by_cases hc : isPathSeparator c = true
    · rw [if_pos hc]
      have hc2 : c = '/' := (isPathSeparator_iff c).1 hc
      cases hcomp : components t with
      | nil => exact absurd hcomp (components_ne_nil t)
      | cons s ss =>
        rw [joinSep, ← hcomp, ih, hc2]
        rfl
    · rw [if_neg hc]
      cases hcomp : components t with
      | nil => exact absurd hcomp (components_ne_nil t)
      | cons s ss =>
        rw [hcomp] at ih
        simp only []
        cases ss with
        | nil =>
          simp only [joinSep] at ih ⊢
          rw [ih]
        | cons s2 ss2 =>
          simp only [joinSep] at ih ⊢
          rw [← ih]
          rfl

theorem components_sepFree (l : List Char) : ∀ s ∈ components l, '/' ∉ s := by
  induction l with
  | nil => intro s hs; simp [components] at hs; rw [hs]; simp
  | cons c t ih =>
    intro s hs
    unfold components at hs
    by_cases hc : isPathSeparator c = true
    · rw [if_pos hc] at hs
      rcases List.mem_cons.1 hs with rfl | h2
      · simp
      · exact ih s h2
    · rw [if_neg hc] at hs
      cases hcomp : components t with
      | nil => exact absurd hcomp (components_ne_nil t)
      | cons s1 ss =>
        rw [hcomp] at hs ih
        simp only [] at hs
        rcases List.mem_cons.1 hs with rfl | h2
        · intro hx
          rcases List.mem_cons.1 hx with h3 | h3
          · exact hc ((isPathSeparator_iff c).2 h3.symm)
          · exact ih s1 (List.mem_cons_self _ _) h3
        · exact ih s (List.mem_cons_of_mem _ h2)

theorem components_sepFree_self (s : List Char) (h : '/' ∉ s) : components s = [s] := by
  induction s with
  | nil => rfl
  | cons c t ih =>
    have hc : ¬ isPathSeparator c = true := by
      intro hx
      exact h (by rw [(isPathSeparator_iff c).1 hx]; exact List.mem_cons_self _ _)
    have ht : '/' ∉ t := fun hx => h (List.mem_cons_of_mem _ hx)
    unfold components
    rw [if_neg hc, ih ht]

theorem components_append_sep (s rest : List Char) (h : '/' ∉ s) :
    components (s ++ '/' :: rest) = s :: components rest := by
  induction s with
  | nil =>
    rw [List.nil_append, components_cons, if_pos ((isPathSeparator_iff _).2 rfl)]
  | cons c t ih =>
    have hc : ¬ isPathSeparator c = true := by
      intro hx
      exact h (by rw [(isPathSeparator_iff c).1 hx]; exact List.mem_cons_self _ _)
    have ht : '/' ∉ t := fun hx => h (List.mem_cons_of_mem _ hx)
    rw [List.cons_append, components_cons, if_neg hc, ih ht]

theorem components_joinSep :
    ∀ (segs : List (List Char)), segs ≠ [] → (∀ s ∈ segs, '/' ∉ s) →
      components (joinSep segs) = segs := by
  intro segs
  induction segs with
  | nil => intro h; exact absurd rfl h
  | cons s ss ih =>
    intro _ hall
    cases ss with
    | nil => exact components_sepFree_self s (hall s (List.mem_cons_self _ _))
    | cons s2 ss2 =>
      rw [joinSep, components_append_sep s _ (hall s (List.mem_cons_self _ _)),
        ih (by simp) (fun x hx => hall x (List.mem_cons_of_mem _ hx))]

theorem joinSep_append_singleton (segs : List (List Char)) (s : List Char) (h : segs ≠ []) :
    joinSep (segs ++ [s]) = joinSep segs ++ '/' :: s := by
  induction segs with
  | nil => exact absurd rfl h
  | cons a rest ih =>
    cases rest with
    | nil => simp [joinSep]
    | cons b rest2 =>
      have h2 := ih (by simp)
      rw [List.cons_append, List.cons_append, joinSep_cons_cons, ← List.cons_append, h2,
        joinSep_cons_cons]
      simp

theorem joinSep_append (a b : List (List Char)) (ha : a ≠ []) (hb : b ≠ []) :
    joinSep (a ++ b) = joinSep a ++ '/' :: joinSep b := by
  induction a with
  | nil => exact absurd rfl ha
  | cons x rest ih =>
    cases rest with
    | nil =>
      cases b with
      | nil => exact absurd rfl hb
      | cons y b2 => simp [joinSep]
    | cons x2 rest2 =>
      have h2 := ih (by simp)
      rw [List.cons_append, List.cons_append, joinSep_cons_cons, ← List.cons_append, h2,
        joinSep_cons_cons]
      simp

theorem joinSep_eq_nil (segs : List (List Char)) (hall : ∀ s ∈ segs, s ≠ []) :
    joinSep segs = [] ↔ segs = [] := by
  cases segs with
  | nil => simp [joinSep]
  | cons s ss =>
    have hs : s ≠ [] := hall s (List.mem_cons_self _ _)
    cases ss with
    | nil => simp [joinSep, hs]
    | cons s2 ss2 => simp [joinSep]

/-! ### Backtracking over the last element -/

theorem backtrackTo_succ (buf : List Char) (dotdot w : Nat) :
    backtrackTo buf dotdot (w + 1) =
      if dotdot < w + 1 ∧ isPathSeparator (buf.getD (w + 1) '/') = false then
        backtrackTo buf dotdot w
      else w + 1 := rfl

theorem getD_sepFree (seg : List Char) (j : Nat) (hj : j < seg.length) (h : '/' ∉ seg) :
    isPathSeparator (seg.getD j '/') = false := by
  rw [List.getD_eq_getElem seg '/' hj]
  simp only [isPathSeparator, beq_eq_false_iff_ne, ne_eq]
  intro hx
  exact h (hx ▸ List.getElem_mem hj)

/-- Backtracking from the end of `pre ++ x :: seg` stops at the length of `pre` when
`seg` has no separator and either `x` is a separator or `pre` ends at `dotdot`. -/
theorem backtrackTo_stop (pre seg : List Char) (x : Char) (dotdot : Nat)
    (hseg : '/' ∉ seg) (hdd : dotdot ≤ pre.length) (hstop : x = '/' ∨ pre.length = dotdot) :
    ∀ j, j ≤ seg.length → backtrackTo (pre ++ x :: seg) dotdot (pre.length + j) = pre.length := by
  intro j
  induction j with
  | zero =>
    intro _
    rw [Nat.add_zero]
    cases hp : pre.length with
    | zero => rfl
    | succ w =>
      rw [backtrackTo_succ]
      have hget : (pre ++ x :: seg).getD (w + 1) '/' = x := by
        rw [← hp, List.getD_append_right _ _ _ _ (Nat.le_refl _)]
        simp
      rw [hget]
      rcases hstop with hx | hx
      · have : ¬ (dotdot < w + 1 ∧ isPathSeparator x = false) := by
          rw [hx]
          simp [isPathSeparator]
        rw [if_neg this]
      · have : ¬ (dotdot < w + 1 ∧ isPathSeparator x = false) := by
          intro h
          omega
        rw [if_neg this]
  | succ j ih =>
    intro hj
    rw [← Nat.add_assoc, backtrackTo_succ]
    have hget : (pre ++ x :: seg).getD (pre.length + j + 1) '/' = seg.getD j '/' := by
      rw [List.getD_append_right _ _ _ _ (by omega)]
      have : pre.length + j + 1 - pre.length = j + 1 := by omega
      rw [this]
      simp
    rw [hget, getD_sepFree seg j (by omega) hseg]
    have : dotdot < pre.length + j + 1 ∧ false = false := ⟨by omega, rfl⟩
    rw [if_pos this]
    exact ih (by omega)

theorem take_backtrackTo (pre seg : List Char) (x : Char) (dotdot : Nat)
    (hseg : '/' ∉ seg) (hdd : dotdot ≤ pre.length) (hstop : x = '/' ∨ pre.length = dotdot) :
    (pre ++ x :: seg).take
      (backtrackTo (pre ++ x :: seg) dotdot ((pre ++ x :: seg).length - 1)) = pre := by
  have hlen : (pre ++ x :: seg).length - 1 = pre.length + seg.length := by
    simp
  rw [hlen, backtrackTo_stop pre seg x dotdot hseg hdd hstop seg.length (Nat.le_refl _)]
  simp

/-! ### The invariant of the output buffer -/

theorem normalElement_ne_nil {s : List Char} (h : normalElement s) : s ≠ [] := h.1

theorem normalElement_sepFree {s : List Char} (h : normalElement s) : '/' ∉ s := h.2.1

theorem shape_elements_ne_nil (k : Nat) (ns : List (List Char))
    (hns : ∀ s ∈ ns, normalElement s) :
    ∀ s ∈ List.replicate k ['.', '.'] ++ ns, s ≠ [] := by
  intro s hs
  rcases List.mem_append.1 hs with h | h
  · rw [List.eq_of_mem_replicate h]
    simp
  · exact (hns s h).1

theorem length_joinSep_append_le (a b : List (List Char)) :
    (joinSep a).length ≤ (joinSep (a ++ b)).length := by
  by_cases ha : a = []
  · rw [ha]; simp [joinSep]
  · by_cases hb : b = []
    · rw [hb, List.append_nil]
    · rw [joinSep_append a b ha hb]
      simp

theorem length_render (rooted : Bool) (segs : List (List Char)) :
    (render rooted segs).length = (if rooted then 1 else 0) + (joinSep segs).length := by
  unfold render
  cases rooted
  · simp
  · simp only [if_true, List.length_append, List.length_singleton]

theorem render_append_singleton (rooted : Bool) (segs : List (List Char)) (s : List Char)
    (h : segs ≠ []) : render rooted (segs ++ [s]) = render rooted segs ++ '/' :: s := by
  unfold render
  rw [joinSep_append_singleton segs s h, List.append_assoc]

theorem render_nil_singleton (rooted : Bool) (s : List Char) :
    render rooted ([] ++ [s]) = render rooted [] ++ s := by
  unfold render
  simp [joinSep]

/-- A normal element is appended to the elements of the buffer. -/
theorem cleanShape_normal (rooted : Bool) (k : Nat) (ns : List (List Char)) (st : Lazybuf)
    (s : List Char) (h : CleanShape rooted k ns st) (hs : normalElement s) :
    CleanShape rooted k (ns ++ [s]) (cleanLoop rooted Scan.element s st) := by
  obtain ⟨hk, hns, hbuf, hdd⟩ := h
  rw [cleanLoop_element_normal rooted s st hs]
  refine ⟨hk, ?_, ?_, hdd⟩
  · intro x hx
    rcases List.mem_append.1 hx with h1 | h1
    · exact hns x h1
    · rw [List.mem_singleton.1 h1]; exact hs
  · simp only []
    rw [← List.append_assoc]
    by_cases hsegs : List.replicate k ['.', '.'] ++ ns = []
    · rw [hsegs] at hbuf ⊢
      rw [render_nil_singleton]
      have hst : startElement rooted st = st := by
        unfold startElement
        have hlen := length_render rooted []
        rw [← hbuf] at hlen
        simp only [joinSep, List.length_nil, Nat.add_zero] at hlen
        cases rooted
        · simp only [Bool.false_eq_true, if_false] at hlen
          simp [hlen]
        · simp only [if_true] at hlen
          simp [hlen]
      rw [hst, hbuf]
    · rw [render_append_singleton rooted _ s hsegs]
      have hjoin : joinSep (List.replicate k ['.', '.'] ++ ns) ≠ [] := by
        intro hx
        exact hsegs ((joinSep_eq_nil _ (shape_elements_ne_nil k ns hns)).1 hx)
      have hpos : 0 < (joinSep (List.replicate k ['.', '.'] ++ ns)).length :=
        List.length_pos.2 hjoin
      have hst : (startElement rooted st).buf = st.buf ++ ['/'] := by
        unfold startElement
        have hlen := length_render rooted (List.replicate k ['.', '.'] ++ ns)
        rw [← hbuf] at hlen
        cases rooted
        · simp only [Bool.false_eq_true, if_false] at hlen
          have : st.buf.length ≠ 0 := by omega
          simp [this]
        · simp only [if_true] at hlen
          have : st.buf.length ≠ 1 := by omega
          simp [this]
      rw [hst, hbuf]
      simp

theorem render_length_le (rooted : Bool) (a b : List (List Char)) :
    (render rooted a).length ≤ (render rooted (a ++ b)).length := by
  rw [length_render, length_render]
  have := length_joinSep_append_le a b
  omega

/-- A `..` element removes the last normal element, or is appended to the leading
`..` elements of a path that is not rooted, or is dropped at the root. -/
theorem cleanShape_dotdot (rooted : Bool) (k : Nat) (ns : List (List Char)) (st : Lazybuf)
    (h : CleanShape rooted k ns st) :
    ∃ k2 ns2, CleanShape rooted k2 ns2 (dotdotElement rooted st) := by
  obtain ⟨hk, hns, hbuf, hdd⟩ := h
  rcases List.eq_nil_or_concat ns with hnil | ⟨ns1, s, hcat⟩
  · -- no normal element to remove
    rw [hnil, List.append_nil] at hbuf
    have hlen : ¬ st.dotdot < st.buf.length := by
      rw [hdd, hbuf]
      omega
    unfold dotdotElement
    rw [if_neg hlen]
    cases rooted with
    | true =>
      simp only [Bool.true_eq_false, if_false]
      exact ⟨k, [], hk, by simp, by rw [List.append_nil]; exact hbuf, hdd⟩
    | false =>
      simp only [if_true]
      refine ⟨k + 1, [], by simp, by simp, ?_, ?_⟩
      · simp only [List.append_nil]
        rw [List.replicate_succ']
        by_cases hk0 : k = 0
        · rw [hk0] at hbuf ⊢
          have hb : st.buf = [] := by rw [hbuf]; rfl
          rw [hb]
          rfl
        · have hne : List.replicate k ['.', '.'] ≠ [] := by
            cases k with
            | zero => exact absurd rfl hk0
            | succ n => simp [List.replicate_succ]
          rw [render_append_singleton false _ _ hne, ← hbuf]
          have hj : joinSep (List.replicate k ['.', '.']) ≠ [] := by
            intro hx
            exact hne ((joinSep_eq_nil _ (fun s hs => by
              rw [List.eq_of_mem_replicate hs]; simp)).1 hx)
          have hpos : 0 < st.buf.length := by
            rw [hbuf, length_render]
            have := List.length_pos.2 hj
            omega
          rw [if_pos hpos]
          simp
      · simp only [List.append_nil]
        congr 1
        rw [List.replicate_succ']
        by_cases hk0 : k = 0
        · rw [hk0] at hbuf ⊢
          have hb : st.buf = [] := by rw [hbuf]; rfl
          rw [hb]
          rfl
        · have hne : List.replicate k ['.', '.'] ≠ [] := by
            cases k with
            | zero => exact absurd rfl hk0
            | succ n => simp [List.replicate_succ]
          rw [render_append_singleton false _ _ hne, ← hbuf]
          have hj : joinSep (List.replicate k ['.', '.']) ≠ [] := by
            intro hx
            exact hne ((joinSep_eq_nil _ (fun s hs => by
              rw [List.eq_of_mem_replicate hs]; simp)).1 hx)
          have hpos : 0 < st.buf.length := by
            rw [hbuf, length_render]
            have := List.length_pos.2 hj
            omega
          rw [if_pos hpos]
          simp
  · -- the last normal element `s` is removed
    have hs : normalElement s := hns s (by rw [hcat]; simp)
    have hns1 : ∀ x ∈ ns1, normalElement x := fun x hx => hns x (by rw [hcat]; simp [hx])
    obtain ⟨x, s1, hxs⟩ := List.exists_cons_of_ne_nil hs.1
    have hs1 : '/' ∉ s1 := fun hx => hs.2.1 (by rw [hxs]; exact List.mem_cons_of_mem _ hx)
    rw [hcat, List.concat_eq_append, ← List.append_assoc] at hbuf
    refine ⟨k, ns1, hk, hns1, ?_, ?_⟩
    · by_cases hP : List.replicate k ['.', '.'] ++ ns1 = []
      · have hk0 : k = 0 := by
          have h1 := (List.append_eq_nil.1 hP).1
          cases k with
          | zero => rfl
          | succ n => simp [List.replicate_succ] at h1
        rw [hP] at hbuf ⊢
        rw [render_nil_singleton, hxs] at hbuf
        have hdd2 : st.dotdot = (render rooted []).length := by rw [hdd, hk0]; rfl
        have hlt : st.dotdot < st.buf.length := by
          rw [hbuf, hdd2]; simp
        unfold dotdotElement
        rw [if_pos hlt]
        simp only []
        rw [hbuf]
        exact take_backtrackTo _ s1 x st.dotdot hs1 (by omega) (Or.inr hdd2.symm)
      · rw [render_append_singleton rooted _ s hP] at hbuf
        have hle : st.dotdot ≤ (render rooted (List.replicate k ['.', '.'] ++ ns1)).length := by
          rw [hdd]
          exact render_length_le rooted _ _
        have hlt : st.dotdot < st.buf.length := by
          rw [hbuf]
          simp only [List.length_append, List.length_cons]
          omega
        unfold dotdotElement
        rw [if_pos hlt]
        simp only []
        rw [hbuf]
        exact take_backtrackTo _ s '/' st.dotdot hs.2.1 hle (Or.inl rfl)
    · unfold dotdotElement
      have hlt : st.dotdot < st.buf.length := by
        rw [hbuf, hdd]
        by_cases hP : List.replicate k ['.', '.'] ++ ns1 = []
        · have hk0 : k = 0 := by
            have h1 := (List.append_eq_nil.1 hP).1
            cases k with
            | zero => rfl
            | succ n => simp [List.replicate_succ] at h1
          rw [hP, render_nil_singleton, hk0, hxs]
          simp
        · rw [render_append_singleton rooted _ s hP]
          have := render_length_le rooted (List.replicate k ['.', '.']) ns1
          simp only [List.length_append, List.length_cons]
          omega
      rw [if_pos hlt]
      exact hdd

/-- Every element without a separator keeps the invariant. -/
theorem cleanShape_element (rooted : Bool) (s : List Char) (st : Lazybuf) (hs : '/' ∉ s)
    (h : ∃ k ns, CleanShape rooted k ns st) :
    ∃ k ns, CleanShape rooted k ns (cleanLoop rooted Scan.element s st) := by
  obtain ⟨k, ns, hshape⟩ := h
  by_cases h0 : s = []
  · rw [h0, cleanLoop_nil]
    exact ⟨k, ns, hshape⟩
  · by_cases h1 : s = ['.']
    · rw [h1, cleanLoop_element_dot]
      exact ⟨k, ns, hshape⟩
    · by_cases h2 : s = ['.', '.']
      · rw [h2, cleanLoop_element_dotdot]
        exact cleanShape_dotdot rooted k ns st hshape
      · exact ⟨k, ns ++ [s], cleanShape_normal rooted k ns st s hshape ⟨h0, hs, h1, h2⟩⟩

theorem cleanShape_fold (rooted : Bool) :
    ∀ (segs : List (List Char)) (st : Lazybuf), (∀ s ∈ segs, '/' ∉ s) →
      (∃ k ns, CleanShape rooted k ns st) →
      ∃ k ns, CleanShape rooted k ns
        (segs.foldl (fun acc s => cleanLoop rooted Scan.element s acc) st) := by
  intro segs
  induction segs with
  | nil => intro st _ h; exact h
  | cons s ss ih =>
    intro st hall h
    rw [List.foldl_cons]
    exact ih _ (fun x hx => hall x (List.mem_cons_of_mem _ hx))
      (cleanShape_element rooted s st (hall s (List.mem_cons_self _ _)) h)

/-- Reading any input from the start of an element keeps the invariant. -/
theorem cleanShape_path (rooted : Bool) (l : List Char) (st : Lazybuf)
    (h : ∃ k ns, CleanShape rooted k ns st) :
    ∃ k ns, CleanShape rooted k ns (cleanLoop rooted Scan.element l st) := by
  rw [← joinSep_components l, cleanLoop_joinSep]
  exact cleanShape_fold rooted _ st (components_sepFree l) h

theorem cleanShape_normals_fold (rooted : Bool) (k : Nat) :
    ∀ (ms ns : List (List Char)) (st : Lazybuf), (∀ s ∈ ms, normalElement s) →
      CleanShape rooted k ns st →
      CleanShape rooted k (ns ++ ms)
        (ms.foldl (fun acc s => cleanLoop rooted Scan.element s acc) st) := by
  intro ms
  induction ms with
  | nil => intro ns st _ h; simpa using h
  | cons m rest ih =>
    intro ns st hall h
    rw [List.foldl_cons]
    have h1 := cleanShape_normal rooted k ns st m h (hall m (List.mem_cons_self _ _))
    have h2 := ih (ns ++ [m]) _ (fun x hx => hall x (List.mem_cons_of_mem _ hx)) h1
    simpa using h2

/-- Reading normal elements appends them to the elements of the buffer. -/
theorem cleanShape_normals (rooted : Bool) (k : Nat) (ms ns : List (List Char)) (st : Lazybuf)
    (hms : ∀ s ∈ ms, normalElement s) (h : CleanShape rooted k ns st) :
    CleanShape rooted k (ns ++ ms) (cleanLoop rooted Scan.element (joinSep ms) st) := by
  rw [cleanLoop_joinSep]
  exact cleanShape_normals_fold rooted k ms ns st hms h

theorem cleanShape_init_rooted : CleanShape true 0 [] ⟨['/'], 1⟩ :=
  ⟨fun _ => rfl, by simp, rfl, rfl⟩

theorem cleanShape_init_relative : CleanShape false 0 [] ⟨[], 0⟩ :=
  ⟨by simp, by simp, rfl, rfl⟩

theorem cleanState_cons (c : Char) (rest : List Char) :
    cleanState (c :: rest) =
      if isPathSeparator c then cleanLoop true Scan.element rest ⟨['/'], 1⟩
      else cleanLoop false Scan.element (c :: rest) ⟨[], 0⟩ := rfl

/-- The final buffer of `Clean` on a non-empty path has the shape of a cleaned
path. -/
theorem cleanShape_cleanState (c : Char) (rest : List Char) :
    ∃ k ns, CleanShape (isPathSeparator c) k ns (cleanState (c :: rest)) := by
  rw [cleanState_cons]
  cases hc : isPathSeparator c with
  | true =>
    simp only [if_true]
    exact cleanShape_path true rest _ ⟨0, [], cleanShape_init_rooted⟩
  | false =>
    simp only [Bool.false_eq_true, if_false]
    exact cleanShape_path false (c :: rest) _ ⟨0, [], cleanShape_init_relative⟩

/-- Cleaning `root/x` is cleaning `root` and reading `x` on from there. -/
theorem cleanState_append_sep (c : Char) (rest x : List Char) :
    cleanState ((c :: rest) ++ '/' :: x) =
      cleanLoop (isPathSeparator c) Scan.element x (cleanState (c :: rest)) := by
  rw [List.cons_append, cleanState_cons, cleanState_cons]
  cases hc : isPathSeparator c with
  | true =>
    simp only [if_true]
    exact cleanLoop_append_sep true x rest _ _
  | false =>
    simp only [Bool.false_eq_true, if_false]
    rw [← List.cons_append]
    exact cleanLoop_append_sep false x (c :: rest) _ _

/-- A cleaned rooted path is the separator followed by normal elements. -/
theorem Clean_rooted (p : List Char) :
    ∃ ns, (∀ s ∈ ns, normalElement s) ∧ Clean ('/' :: p) = '/' :: joinSep ns := by
  obtain ⟨k, ns, hk, hns, hbuf, _⟩ := cleanShape_cleanState '/' p
  have hk0 : k = 0 := hk rfl
  rw [hk0] at hbuf
  have hb : (cleanState ('/' :: p)).buf = '/' :: joinSep ns := by
    rw [hbuf]
    rfl
  refine ⟨ns, hns, ?_⟩
  unfold Clean
  rw [hb]
  simp

/-! ### Lexical containment of the resolved path -/

theorem relativeTo_self (root : List Char) : relativeTo root root = some [] := by
  unfold relativeTo
  rw [if_pos rfl]

theorem relativeTo_root (rel : List Char) (h : rel ≠ []) :
    relativeTo ['/'] ('/' :: rel) = some rel := by
  unfold relativeTo
  have h1 : ¬ ('/' :: rel = ['/']) := by simpa using h
  rw [if_neg h1, if_pos rfl]
  rfl

theorem relativeTo_dot (x : List Char) (h1 : x ≠ ['.']) (h2 : x.head? ≠ some '/') :
    relativeTo ['.'] x = some x := by
  unfold relativeTo
  rw [if_neg h1, if_neg (by decide), if_pos rfl, if_neg h2]

theorem relativeTo_extend (root rel : List Char) (h1 : root ≠ ['/']) (h2 : root ≠ ['.']) :
    relativeTo root (root ++ '/' :: rel) = some rel := by
  unfold relativeTo
  have h0 : ¬ (root ++ '/' :: rel = root) := by
    intro h
    have := congrArg List.length h
    simp at this
  have h3 : (root ++ ['/']) <+: (root ++ '/' :: rel) :=
    ⟨rel, by simp⟩
  rw [if_neg h0, if_neg h1, if_neg h2, if_pos h3]
  simp

theorem head?_joinSep (s : List Char) (ss : List (List Char)) (hs : s ≠ []) :
    (joinSep (s :: ss)).head? = s.head? := by
  cases ss with
  | nil => rfl
  | cons s2 ss2 =>
    rw [joinSep_cons_cons]
    cases s with
    | nil => exact absurd rfl hs
    | cons c t => rfl

theorem head?_ne_sep (s : List Char) (hs : '/' ∉ s) : s.head? ≠ some '/' := by
  cases s with
  | nil => simp
  | cons c t =>
    simp only [List.head?_cons, ne_eq, Option.some.injEq]
    intro hc
    exact hs (by rw [hc]; exact List.mem_cons_self _ _)

/-- The text of a non-empty list of kept elements is neither `.` nor starts with a
separator. -/
theorem joinSep_kept (segs : List (List Char)) (hne : segs ≠ [])
    (hall : ∀ s ∈ segs, s ≠ [] ∧ '/' ∉ s ∧ s ≠ ['.']) :
    joinSep segs ≠ ['.'] ∧ (joinSep segs).head? ≠ some '/' ∧ joinSep segs ≠ [] := by
  cases segs with
  | nil => exact absurd rfl hne
  | cons s ss =>
    obtain ⟨h1, h2, h3⟩ := hall s (List.mem_cons_self _ _)
    refine ⟨?_, ?_, ?_⟩
    · cases ss with
      | nil => exact h3
      | cons s2 ss2 =>
        rw [joinSep_cons_cons]
        intro h
        have hl := congrArg List.length h
        have := List.length_pos.2 h1
        simp at hl
        omega
    · rw [head?_joinSep s ss h1]
      exact head?_ne_sep s h2
    · intro h
      have := (joinSep_eq_nil _ (fun x hx => (hall x hx).1)).1 h
      exact hne this

theorem shape_elements_kept (k : Nat) (ns : List (List Char))
    (hns : ∀ s ∈ ns, normalElement s) :
    ∀ s ∈ List.replicate k ['.', '.'] ++ ns, s ≠ [] ∧ '/' ∉ s ∧ s ≠ ['.'] := by
  intro s hs
  rcases List.mem_append.1 hs with h | h
  · rw [List.eq_of_mem_replicate h]
    decide
  · exact ⟨(hns s h).1, (hns s h).2.1, (hns s h).2.2.1⟩

theorem render_append (rooted : Bool) (a b : List (List Char)) (ha : a ≠ []) (hb : b ≠ []) :
    render rooted (a ++ b) = render rooted a ++ '/' :: joinSep b := by
  unfold render
  rw [joinSep_append a b ha hb, List.append_assoc]

theorem Join_pair (root x : List Char) (h : root ≠ []) :
    Join [root, x] = Clean (root ++ '/' :: x) := by
  unfold Join
  cases root with
  | nil => exact absurd rfl h
  | cons c t =>
    simp [List.intercalate, List.intersperse]

theorem dotdot_not_mem_normals (ms : List (List Char)) (h : ∀ s ∈ ms, normalElement s) :
    ['.', '.'] ∉ ms := fun hx => (h _ hx).2.2.2 rfl

theorem Clean_eq (path : List Char) :
    Clean path =
      if (cleanState path).buf.length = 0 then ['.'] else (cleanState path).buf := rfl

/-- The resolved path, element by element: the buffer of `Clean` on the root holds the
elements `segs`, and on `root/Clean(p)` it holds `segs` followed by normal elements
`ms`, the elements of the cleaned request path. -/
theorem resolve_elements (c : Char) (rest p : List Char) :
    ∃ (k : Nat) (ns ms : List (List Char)),
      (∀ s ∈ ns, normalElement s) ∧ (∀ s ∈ ms, normalElement s) ∧
      (cleanState (c :: rest)).buf =
        render (isPathSeparator c) (List.replicate k ['.', '.'] ++ ns) ∧
      (cleanState ((c :: rest) ++ '/' :: Clean ('/' :: p))).buf =
        render (isPathSeparator c) ((List.replicate k ['.', '.'] ++ ns) ++ ms) := by
  obtain ⟨ms, hms, hclean⟩ := Clean_rooted p
  obtain ⟨k, ns, hshape⟩ := cleanShape_cleanState c rest
  have h2 := cleanShape_normals (isPathSeparator c) k ms ns _ hms hshape
  refine ⟨k, ns, ms, hshape.2.1, hms, hshape.2.2.1, ?_⟩
  rw [cleanState_append_sep, hclean, cleanLoop_element_cons,
    if_pos ((isPathSeparator_iff '/').2 rfl), h2.2.2.1, List.append_assoc]

/-- For a non-empty root directory the resolved path is the cleaned root itself or lies
lexically below it. -/
theorem resolve_below_root (rootDir p : List Char) (hroot : rootDir ≠ [])
    (hp : p.head? = some '/') :
    lexBelow (Clean rootDir) (resolve rootDir p) := by
  obtain ⟨c, rest, hc⟩ := List.exists_cons_of_ne_nil hroot
  obtain ⟨p1, hp1⟩ : ∃ p1, p = '/' :: p1 := by
    cases p with
    | nil => simp at hp
    | cons x t =>
      simp only [List.head?_cons, Option.some.injEq] at hp
      exact ⟨t, by rw [hp]⟩
  subst hc hp1
  obtain ⟨k, ns, ms, hns, hms, hroot_buf, hres_buf⟩ := resolve_elements c rest p1
  have hkept := shape_elements_kept k ns hns
  rw [resolve, Join_pair _ _ hroot, Clean_eq (c :: rest),
    Clean_eq (c :: rest ++ '/' :: Clean ('/' :: p1)), hres_buf, hroot_buf]
  generalize hsegs : List.replicate k ['.', '.'] ++ ns = segs at hkept hroot_buf hres_buf
  by_cases hms0 : ms = []
  · -- the request path is the root itself
    rw [hms0, List.append_nil]
    exact ⟨[], relativeTo_self _, by decide⟩
  · have hms_kept : ∀ s ∈ ms, s ≠ [] ∧ '/' ∉ s ∧ s ≠ ['.'] :=
      fun s hs => ⟨(hms s hs).1, (hms s hs).2.1, (hms s hs).2.2.1⟩
    have hms_sep : ∀ s ∈ ms, '/' ∉ s := fun s hs => (hms s hs).2.1
    obtain ⟨hj1, hj2, hj3⟩ := joinSep_kept ms hms0 hms_kept
    have hcomp : components (joinSep ms) = ms := components_joinSep ms hms0 hms_sep
    have hnodd : ['.', '.'] ∉ components (joinSep ms) := by
      rw [hcomp]
      exact dotdot_not_mem_normals ms hms
    by_cases hs0 : segs = []
    · rw [hs0, List.nil_append]
      cases hr : isPathSeparator c with
      | true =>
        have e1 : render true [] = ['/'] := rfl
        have e2 : render true ms = '/' :: joinSep ms := rfl
        rw [e1, e2]
        simp only [List.length_cons, List.length_nil, Nat.add_eq_zero, one_ne_zero, and_false,
          if_false, List.length_singleton]
        exact ⟨joinSep ms, relativeTo_root _ hj3, hnodd⟩
      | false =>
        have e1 : render false [] = [] := rfl
        have e2 : render false ms = joinSep ms := rfl
        rw [e1, e2]
        have hl : ¬ (joinSep ms).length = 0 := fun h => hj3 (List.length_eq_zero.1 h)
        rw [if_neg hl]
        simp only [List.length_nil, if_true]
        exact ⟨joinSep ms, relativeTo_dot _ hj1 hj2, hnodd⟩
    · obtain ⟨hk1, hk2, hk3⟩ := joinSep_kept segs hs0 hkept
      rw [render_append _ segs ms hs0 hms0]
      have hne : render (isPathSeparator c) segs ≠ [] := by
        unfold render
        intro h
        exact hk3 (List.append_eq_nil.1 h).2
      have hl1 : ¬ (render (isPathSeparator c) segs).length = 0 :=
        fun h => hne (List.length_eq_zero.1 h)
      have hl2 : ¬ (render (isPathSeparator c) segs ++ '/' :: joinSep ms).length = 0 := by
        simp
      rw [if_neg hl1, if_neg hl2]
      refine ⟨joinSep ms, relativeTo_extend _ _ ?_ ?_, hnodd⟩
      · cases hr : isPathSeparator c with
        | true =>
          intro h
          have e : render true segs = '/' :: joinSep segs := rfl
          rw [e] at h
          simp only [List.cons.injEq, true_and] at h
          exact hk3 h
        | false =>
          intro h
          have e : render false segs = joinSep segs := rfl
          rw [e] at h
          rw [h] at hk2
          exact hk2 rfl
      · cases hr : isPathSeparator c with
        | true =>
          intro h
          have e : render true segs = '/' :: joinSep segs := rfl
          rw [e] at h
          simp at h
        | false =>
          intro h
          have e : render false segs = joinSep segs := rfl
          rw [e] at h
          exact hk1 h

theorem cleanLoop_rooted_normals (ms : List (List Char)) (hms : ∀ s ∈ ms, normalElement s) :
    (cleanLoop true Scan.element (joinSep ms) ⟨['/'], 1⟩).buf = '/' :: joinSep ms := by
  have h := cleanShape_normals true 0 ms [] _ hms cleanShape_init_rooted
  rw [h.2.2.1]
  rfl

/-- Cleaning a cleaned rooted path changes nothing. -/
theorem Clean_rooted_normals (ms : List (List Char)) (hms : ∀ s ∈ ms, normalElement s) :
    Clean ('/' :: joinSep ms) = '/' :: joinSep ms := by
  rw [Clean_eq, cleanState_cons, if_pos ((isPathSeparator_iff '/').2 rfl),
    cleanLoop_rooted_normals ms hms]
  simp

/-- With the empty root directory `Join` drops the root: the resolved path is the cleaned
request path. -/
theorem resolve_nil (p : List Char) : resolve [] ('/' :: p) = Clean ('/' :: p) := by
  obtain ⟨ms, hms, hclean⟩ := Clean_rooted p
  unfold resolve Join
  rw [hclean]
  simp only [List.isEmpty_nil, List.dropWhile_cons_of_pos, List.isEmpty_cons,
    Bool.false_eq_true, not_false_eq_true, List.dropWhile_cons_of_neg]
  have hi : List.intercalate ['/'] ['/' :: joinSep ms] = '/' :: joinSep ms := by
    simp [List.intercalate, List.intersperse]
  rw [hi]
  exact Clean_rooted_normals ms hms

/-- With the root directory `/` the resolved path is the cleaned request path as well. -/
theorem resolve_slash (p : List Char) : resolve ['/'] ('/' :: p) = Clean ('/' :: p) := by
  obtain ⟨ms, hms, hclean⟩ := Clean_rooted p
  rw [resolve, Join_pair _ _ (by simp), hclean, Clean_eq, cleanState_append_sep,
    cleanLoop_element_cons, if_pos ((isPathSeparator_iff '/').2 rfl)]
  have hs : cleanState ['/'] = ⟨['/'], 1⟩ := rfl
  have hr : isPathSeparator '/' = true := rfl
  rw [hs, hr, cleanLoop_rooted_normals ms hms]
  simp

theorem servedRoot_eq_resolve (rootDir : List Char) :
    servedRoot rootDir = resolve rootDir ['/'] := by
  have h : Clean ['/'] = ['/'] := by decide
  rw [servedRoot, resolve, h]

theorem servedRoot_of_ne_nil (rootDir : List Char) (h : rootDir ≠ []) :
    servedRoot rootDir = Clean rootDir := by
  obtain ⟨c, rest, hc⟩ := List.exists_cons_of_ne_nil h
  subst hc
  rw [servedRoot, Join_pair _ _ h, Clean_eq, Clean_eq (c :: rest), cleanState_append_sep,
    cleanLoop_element_cons, if_pos ((isPathSeparator_iff '/').2 rfl), cleanLoop_nil]

theorem servedRoot_nil : servedRoot [] = ['/'] := by decide

/-- C1: for every configured root directory and every request path that begins with
`/`, whatever `.` and `..` elements it holds, the path that the handlers resolve,
`filepath.Join(rootDir, filepath.Clean(p))`, is the served root itself or lies lexically
below it: it extends the root by elements none of which is `..`. The served root is
the path that the request path `/` resolves to; it is the cleaned root directory,
and `/` for the empty root directory, which `Join` ignores and which therefore
serves what the root directory `/` serves. -/
theorem resolve_within_root (rootDir p : List Char) (hp : p.head? = some '/') :
    lexBelow (servedRoot rootDir) (resolve rootDir p) ∧
    servedRoot rootDir = resolve rootDir ['/'] ∧
    (rootDir ≠ [] → servedRoot rootDir = Clean rootDir) ∧
    (rootDir = [] → servedRoot rootDir = ['/'] ∧ resolve rootDir p = resolve ['/'] p) := by
  obtain ⟨p1, hp1⟩ : ∃ p1, p = '/' :: p1 := by
    cases p with
    | nil => simp at hp
    | cons x t =>
      simp only [List.head?_cons, Option.some.injEq] at hp
      exact ⟨t, by rw [hp]⟩
  refine ⟨?_, servedRoot_eq_resolve rootDir, servedRoot_of_ne_nil rootDir, ?_⟩
  · by_cases hroot : rootDir = []
    · subst hroot hp1
      rw [servedRoot_nil, resolve_nil]
      obtain ⟨ms, hms, hclean⟩ := Clean_rooted p1
      rw [hclean]
      by_cases hms0 : ms = []
      · rw [hms0]
        exact ⟨[], relativeTo_self _, by decide⟩
      · have hms_kept : ∀ s ∈ ms, s ≠ [] ∧ '/' ∉ s ∧ s ≠ ['.'] :=
          fun s hs => ⟨(hms s hs).1, (hms s hs).2.1, (hms s hs).2.2.1⟩
        obtain ⟨_, _, hj3⟩ := joinSep_kept ms hms0 hms_kept
        refine ⟨joinSep ms, relativeTo_root _ hj3, ?_⟩
        rw [components_joinSep ms hms0 (fun s hs => (hms s hs).2.1)]
        exact dotdot_not_mem_normals ms hms
    · rw [servedRoot_of_ne_nil rootDir hroot]
      exact resolve_below_root rootDir p hroot hp
  · intro hroot
    subst hroot hp1
    exact ⟨servedRoot_nil, by rw [resolve_nil, resolve_slash]⟩

theorem resolve_within_root_witness :
    lexBelow (servedRoot "/srv/files/".toList)
      (resolve "/srv/files/".toList "/a/../../../etc/./passwd".toList) ∧
    servedRoot "/srv/files/".toList = resolve "/srv/files/".toList ['/'] ∧
    ("/srv/files/".toList ≠ [] → servedRoot "/srv/files/".toList = Clean "/srv/files/".toList) ∧
    ("/srv/files/".toList = [] → servedRoot "/srv/files/".toList = ['/'] ∧
      resolve "/srv/files/".toList "/a/../../../etc/./passwd".toList =
        resolve ['/'] "/a/../../../etc/./passwd".toList) :=
  resolve_within_root "/srv/files/".toList "/a/../../../etc/./passwd".toList (by decide)

/-- The empty root directory at work: `Join` ignores it, the served root is `/` and the
request path `/../etc/passwd` resolves to `/etc/passwd`, as it does under the root
directory `/`. -/
theorem resolve_empty_root_example :
    servedRoot emptyRootConfig.rootDir = "/".toList ∧
    resolve emptyRootConfig.rootDir "/../etc/passwd".toList = "/etc/passwd".toList ∧
    resolve "/".toList "/../etc/passwd".toList = "/etc/passwd".toList := by
  refine ⟨by decide, by decide, by decide⟩

/-- The read length of a body never exceeds its length on the wire. -/
theorem Body.readLen_le_wireLen (body : Body) : body.readLen ≤ body.wireLen := by
  cases body with
  | multipart pre b parts closing epilogue =>
    simp only [Body.readLen, Body.wireLen]
    omega
  | raw bytes => exact Nat.le_refl _

/-- A file behind a URL path with a `..` element is not served: `c.File` answers 400. -/
theorem handleList_dotdot_example :
    handleList srvConfig fileWorld "/docs/../a.txt".toList =
      Response.text 400 "invalid URL path\n" := by
  decide
end HttpServer
